import Mathlib

/-!
# The import plugin gRPC server (`rpc/import_grpc_server.go`)

A shallow embedding of `ImportGRPCServer` and its three RPC handlers `Close`,
`Configure` and `Get`, followed by the properties of the instance registry and
of the batched `Get` dispatch.

Conventions of the embedding:

* `uint64` values are natural numbers; the only arithmetic on them in the
  source is `atomic.AddUint64`, which wraps modulo `2 ^ 64`, and the
  conversion `int64(..)` of the execution deadline.
* The Go map `instances` is a function `Nat → Option I`; the `nil` map of a
  zero-valued server and the empty map are both `fun _ => none` (reads and
  `delete` do not distinguish them, and `Configure` allocates on first use).
* The value codec (`encoding.ValueToGo`, `encoding.GoToValue`), the factory
  `F` and the plugin objects are collaborators that live outside this file.
  They are parameters: plugin objects are handles of a type `I`, and every
  call to a plugin or to the factory reads and writes a collaborator state of
  type `W`.
* Every handler returns, besides its Go result, the server afterwards, the
  collaborator state afterwards, and the list of collaborator calls it made.
* The iteration order of `for id, reqs := range requestsById` is not
  defined by Go; `Get` takes a number `seed` that selects the order among all
  permutations of the groups.
-/

namespace Rpc

/-- New value stored (and returned) by `atomic.AddUint64(addr, delta)` on a `uint64`. -/
def addUint64 (addr delta : Nat) : Nat := (addr + delta) % 2 ^ 64

/-- Go conversion `int64(x)` of a `uint64` value `x`. -/
def int64 (x : Nat) : Int :=
  if x % 2 ^ 64 < 2 ^ 63 then ((x % 2 ^ 64 : Nat) : Int)
  else ((x % 2 ^ 64 : Nat) : Int) - 2 ^ 64

/-- Modelled from the spec: `time.Time` as produced by `time.Unix(sec, nsec)`,
an instant given by its Unix seconds and the nanoseconds within the second. -/
structure Time where
  sec : Int
  nsec : Int
  deriving DecidableEq, Repr

/-- The call `time.Unix(sec, nsec)` for `0 ≤ nsec < 10 ^ 9`. -/
def timeUnix (sec nsec : Int) : Time := ⟨sec, nsec⟩

/-- Values of Go's `error` interface that the handlers return: either a value
built in this file by `fmt.Errorf`, given by its message, or an error value
received from a collaborator and handed back as it is. -/
inductive GoError (E : Type) where
  | errorf (msg : String)
  | val (err : E)
  deriving DecidableEq, Repr

deriving instance DecidableEq for Except

/-- The second argument of `encoding.ValueToGo`: `nil`, or
`reflect.TypeOf(config)` for `config : map[string]interface{}`. -/
inductive TypeHint where
  | nil
  | stringMap
  deriving DecidableEq, Repr

/-- Modelled from the spec: `proto.Get_Request_Key`, a key name with its
wire-encoded arguments (a `nil` argument slice is the empty list). -/
structure WireKey (Wire : Type) where
  Key : String
  Args : List Wire
  deriving DecidableEq, Repr

/-- Modelled from the spec: `proto.Get_Request`, one entry of a
`proto.Get_MultiRequest`. `InstanceId` and `ExecDeadline` are `uint64`. -/
structure WireRequest (Wire : Type) where
  InstanceId : Nat
  ExecId : String
  ExecDeadline : Nat
  Keys : List (WireKey Wire)
  KeyId : String
  deriving DecidableEq, Repr

/-- Modelled from the spec: `sdk.GetKey`, a key name with native arguments. -/
structure GetKey (Go : Type) where
  Key : String
  Args : List Go
  deriving DecidableEq, Repr

/-- Modelled from the spec: `sdk.GetReq`, the request handed to a plugin. -/
structure GetReq (Go : Type) where
  ExecId : String
  ExecDeadline : Time
  Keys : List (GetKey Go)
  KeyId : String
  deriving DecidableEq, Repr

/-- Modelled from the spec: `sdk.GetResult`, one result returned by a plugin. -/
structure GetResult (Go : Type) where
  KeyId : String
  Keys : List String
  Value : Go
  deriving DecidableEq, Repr

/-- Modelled from the spec: `proto.Get_Response`, one entry of the
`proto.Get_MultiResponse` returned by `Get`. -/
structure GetResponse (Wire : Type) where
  InstanceId : Nat
  KeyId : String
  Keys : List String
  Value : Wire
  deriving DecidableEq, Repr

/-- Modelled from the spec: the collaborators of the server, which are not in
this file: the value codec of package `encoding`, the method `Error` of error
values, and the methods of `sdk.Import` objects (`Configure`, `Get`, and
`Close` for those that are an `io.Closer`). Plugin methods act on the
collaborator state `W`. -/
structure Collab (Wire Go E I W : Type) where
  ValueToGo : Wire → TypeHint → Except E Go
  GoToValue : Go → Except E Wire
  Error : E → String
  Configure : I → Go → W → Option E × W
  Get : I → List (GetReq Go) → W → Except E (List (GetResult Go)) × W
  Closer : I → Bool
  Close : I → W → Option E × W

/-- A call made to a collaborator object: the factory `m.F()` with the object
it returned, `impt.Configure(config)`, `impt.Get(reqs)` made for the group of
identifier `id`, and `c.Close()` made for identifier `id`. -/
inductive Event (Go I : Type) where
  | F (impt : I)
  | Configure (impt : I) (config : Go)
  | Get (id : Nat) (impt : I) (reqs : List (GetReq Go))
  | Close (id : Nat) (impt : I)
  deriving DecidableEq, Repr

/-- The struct `ImportGRPCServer`: the factory `F`, the counter `instanceId`
and the map `instances` (the lock has no sequential content). -/
structure ImportGRPCServer (I W : Type) where
  F : W → I × W
  instanceId : Nat
  instances : Nat → Option I

/-- What a handler leaves behind: its Go return value (a response or an
error), the server, the collaborator state, and the collaborator calls it
made, oldest first. -/
structure Out (ρ Go E I W : Type) where
  ret : Except (GoError E) ρ
  m : ImportGRPCServer I W
  w : W
  calls : List (Event Go I)

variable {Wire Go E I W : Type}

namespace ImportGRPCServer

/-- A server on which no handler has run yet: counter zero, no instances. -/
def fresh (F : W → I × W) : ImportGRPCServer I W :=
  { F := F, instanceId := 0, instances := fun _ => none }

/-- The handler `ImportGRPCServer.Close` for `v.InstanceId = id`. -/
def Close (env : Collab Wire Go E I W) (m : ImportGRPCServer I W) (id : Nat) (w : W) :
    Out Unit Go E I W :=
  let m1 : ImportGRPCServer I W := { m with instances := Function.update m.instances id none }
  match m.instances id with
  | some impt =>
    if env.Closer impt then
      { ret := .ok (), m := m1, w := (env.Close impt w).2, calls := [Event.Close id impt] }
    else
      { ret := .ok (), m := m1, w := w, calls := [] }
  | none => { ret := .ok (), m := m1, w := w, calls := [] }

/-- The handler `ImportGRPCServer.Configure` for `v.Config = config`; on
success the response carries the new `InstanceId`. -/
def Configure (env : Collab Wire Go E I W) (m : ImportGRPCServer I W) (config : Wire) (w : W) :
    Out Nat Go E I W :=
  match env.ValueToGo config TypeHint.stringMap with
  | .error err =>
    { ret := .error (GoError.errorf ("error converting config: " ++ env.Error err)),
      m := m, w := w, calls := [] }
  | .ok configRaw =>
    let impt := (m.F w).1
    let w1 := (m.F w).2
    match env.Configure impt configRaw w1 with
    | (some err, w2) =>
      { ret := .error (GoError.val err), m := m, w := w2,
        calls := [Event.F impt, Event.Configure impt configRaw] }
    | (none, w2) =>
      let id := addUint64 m.instanceId 1
      { ret := .ok id,
        m := { m with instanceId := id, instances := Function.update m.instances id (some impt) },
        w := w2,
        calls := [Event.F impt, Event.Configure impt configRaw] }

end ImportGRPCServer

/-- The innermost loop of `Get`, `for j, arg := range reqKey.Args`, for the key
at index `i`: every argument is decoded with `encoding.ValueToGo(arg, nil)`;
the first failure leaves the handler with the `fmt.Errorf` error, whose `%d`
is filled with `i`. -/
def convertArgs (env : Collab Wire Go E I W) (i : Nat) :
    List Wire → Except (GoError E) (List Go)
  | [] => .ok []
  | arg :: rest =>
    match env.ValueToGo arg TypeHint.nil with
    | .error err =>
      .error (GoError.errorf ("error converting arg " ++ toString i ++ ": " ++ env.Error err))
    | .ok obj =>
      match convertArgs env i rest with
      | .error e => .error e
      | .ok objs => .ok (obj :: objs)

/-- The loop `for i, reqKey := range req.Keys` of `Get`, from index `i` on. -/
def convertKeys (env : Collab Wire Go E I W) :
    Nat → List (WireKey Wire) → Except (GoError E) (List (GetKey Go))
  | _, [] => .ok []
  | i, reqKey :: rest =>
    match convertArgs env i reqKey.Args with
    | .error e => .error e
    | .ok args =>
      match convertKeys env (i + 1) rest with
      | .error e => .error e
      | .ok keys => .ok ({ Key := reqKey.Key, Args := args } :: keys)

/-- The body of `for _, req := range v.Requests` up to the construction of
`getReq`. -/
def convertReq (env : Collab Wire Go E I W) (req : WireRequest Wire) :
    Except (GoError E) (GetReq Go) :=
  match convertKeys env 0 req.Keys with
  | .error e => .error e
  | .ok keys =>
    .ok { ExecId := req.ExecId,
          ExecDeadline := timeUnix (int64 req.ExecDeadline) 0,
          Keys := keys,
          KeyId := req.KeyId }

/-- The statement `requestsById[id] = append(requestsById[id], getReq)` on a
map kept as a list of entries with distinct keys, in order of first insertion. -/
def appendReq (requestsById : List (Nat × List (GetReq Go))) (id : Nat) (getReq : GetReq Go) :
    List (Nat × List (GetReq Go)) :=
  match requestsById with
  | [] => [(id, [getReq])]
  | (k, reqs) :: rest =>
    if k = id then (k, reqs ++ [getReq]) :: rest
    else (k, reqs) :: appendReq rest id getReq

/-- The first loop of `Get`, `for _, req := range v.Requests`, run on the
requests still to be read with the map built so far. -/
def buildRequestsById (env : Collab Wire Go E I W) :
    List (WireRequest Wire) → List (Nat × List (GetReq Go)) →
      Except (GoError E) (List (Nat × List (GetReq Go)))
  | [], requestsById => .ok requestsById
  | req :: rest, requestsById =>
    match convertReq env req with
    | .error e => .error e
    | .ok getReq => buildRequestsById env rest (appendReq requestsById req.InstanceId getReq)

/-- The loop `for _, result := range results` of `Get` for the group of
identifier `id`: each value is encoded with `encoding.GoToValue` and the
response entry appended to `responses`. -/
def appendResults (env : Collab Wire Go E I W) (id : Nat) :
    List (GetResult Go) → List (GetResponse Wire) → Except (GoError E) (List (GetResponse Wire))
  | [], responses => .ok responses
  | result :: rest, responses =>
    match env.GoToValue result.Value with
    | .error err => .error (GoError.val err)
    | .ok v =>
      appendResults env id rest
        (responses ++ [{ InstanceId := id, KeyId := result.KeyId, Keys := result.Keys, Value := v }])

/-- The second loop of `Get`, `for id, reqs := range requestsById`, over the
groups in the order in which the iteration visits them, with the responses,
the collaborator state and the collaborator calls accumulated so far. -/
def dispatch (env : Collab Wire Go E I W) (m : ImportGRPCServer I W) :
    List (Nat × List (GetReq Go)) → List (GetResponse Wire) → W → List (Event Go I) →
      Out (List (GetResponse Wire)) Go E I W
  | [], responses, w, calls => { ret := .ok responses, m := m, w := w, calls := calls }
  | (id, reqs) :: rest, responses, w, calls =>
    match m.instances id with
    | none =>
      { ret := .error (GoError.errorf ("unknown instance ID given: " ++ toString id)),
        m := m, w := w, calls := calls }
    | some impt =>
      match env.Get impt reqs w with
      | (.error err, w1) =>
        { ret := .error (GoError.val err), m := m, w := w1,
          calls := calls ++ [Event.Get id impt reqs] }
      | (.ok results, w1) =>
        match appendResults env id results responses with
        | .error e =>
          { ret := .error e, m := m, w := w1, calls := calls ++ [Event.Get id impt reqs] }
        | .ok responses1 =>
          dispatch env m rest responses1 w1 (calls ++ [Event.Get id impt reqs])

/-- The order in which a `range` over a Go map with entries `l` visits them:
the permutation of `l` numbered `seed` (the entries as they are when `seed`
is not the number of a permutation). Every permutation has a number. -/
def visitOrder {α : Type} (seed : Nat) (l : List α) : List α :=
  (List.permutations' l).getD seed l

namespace ImportGRPCServer

/-- The handler `ImportGRPCServer.Get` for `v.Requests = requests`, the map
iteration taking the order numbered `seed`. -/
def Get (env : Collab Wire Go E I W) (m : ImportGRPCServer I W)
    (requests : List (WireRequest Wire)) (seed : Nat) (w : W) :
    Out (List (GetResponse Wire)) Go E I W :=
  match buildRequestsById env requests [] with
  | .error e => { ret := .error e, m := m, w := w, calls := [] }
  | .ok requestsById => dispatch env m (visitOrder seed requestsById) [] w []

end ImportGRPCServer

/-- One RPC made to the server. -/
inductive Call (Wire : Type) where
  | Configure (config : Wire)
  | Get (requests : List (WireRequest Wire)) (seed : Nat)
  | Close (id : Nat)
  deriving DecidableEq, Repr

/-- The Go return value of one RPC, by handler. -/
inductive Reply (Wire E : Type) where
  | Configure (ret : Except (GoError E) Nat)
  | Get (ret : Except (GoError E) (List (GetResponse Wire)))
  | Close (ret : Except (GoError E) Unit)

/-- One RPC run to completion on server `m` and collaborator state `w`. -/
def step (env : Collab Wire Go E I W) (m : ImportGRPCServer I W) (w : W) :
    Call Wire → Reply Wire E × ImportGRPCServer I W × W
  | Call.Configure config =>
    let o := ImportGRPCServer.Configure env m config w
    (Reply.Configure o.ret, o.m, o.w)
  | Call.Get requests seed =>
    let o := ImportGRPCServer.Get env m requests seed w
    (Reply.Get o.ret, o.m, o.w)
  | Call.Close id =>
    let o := ImportGRPCServer.Close env m id w
    (Reply.Close o.ret, o.m, o.w)

/-- A sequence of RPCs run one after another: the replies in call order, the
server and the collaborator state at the end. -/
def run (env : Collab Wire Go E I W) :
    ImportGRPCServer I W → W → List (Call Wire) →
      List (Reply Wire E) × ImportGRPCServer I W × W
  | m, w, [] => ([], m, w)
  | m, w, c :: cs =>
    let r := step env m w c
    let rs := run env r.2.1 r.2.2 cs
    (r.1 :: rs.1, rs.2.1, rs.2.2)

/-- The identifiers returned by the successful `Configure` calls among the
replies, in call order. -/
def configuredIds : List (Reply Wire E) → List Nat
  | [] => []
  | Reply.Configure (.ok id) :: rs => id :: configuredIds rs
  | _ :: rs => configuredIds rs

/-- A factory for the examples: the objects it makes are numbered 0, 1, 2, ...,
the collaborator state being the number of objects made so far. -/
def demoF (w : Nat) : Nat × Nat := (w, w + 1)

/-- Collaborators for the examples. Wire values are `some n`, which decodes to
`n`, and `none`, which does not decode. A plugin rejects the configuration
`0`, answers every request with one result that echoes its key id and key
names and whose value is the number of the plugin, and is an `io.Closer`
whose `Close` fails. -/
def demo : Collab (Option Nat) Nat String Nat Nat where
  ValueToGo := fun v _ =>
    match v with
    | some n => .ok n
    | none => .error "undecodable"
  GoToValue := fun n => .ok (some n)
  Error := fun e => e
  Configure := fun _ config w => (if config = 0 then some "rejected" else none, w)
  Get := fun impt reqs w =>
    (.ok (reqs.map fun r => { KeyId := r.KeyId, Keys := r.Keys.map (·.Key), Value := impt }), w)
  Closer := fun _ => true
  Close := fun _ w => (some "close failed", w)

/-- Whether a wire argument decodes with `encoding.ValueToGo(arg, nil)`. -/
def decodes (env : Collab Wire Go E I W) (arg : Wire) : Bool :=
  match env.ValueToGo arg TypeHint.nil with
  | .ok _ => true
  | .error _ => false

/-- Whether every argument of every key of every request of a batch decodes. -/
def argsDecode (env : Collab Wire Go E I W) (requests : List (WireRequest Wire)) : Bool :=
  requests.all fun r => r.Keys.all fun k => k.Args.all fun a => decodes env a

/-- A request for the examples: one key `"x"` with the given arguments,
addressed to instance `id` under key id `keyId`. -/
def demoReq (id : Nat) (keyId : String) (args : List (Option Nat)) : WireRequest (Option Nat) :=
  { InstanceId := id, ExecId := "e", ExecDeadline := 0,
    Keys := [{ Key := "x", Args := args }], KeyId := keyId }

/-- Collaborators for the examples, as `demo` except that a plugin answers
every request with two results (a plugin that expands one key into two). -/
def expanding : Collab (Option Nat) Nat String Nat Nat :=
  { demo with
    Get := fun impt reqs w =>
      (.ok (reqs.flatMap fun r =>
        [{ KeyId := r.KeyId, Keys := r.Keys.map (·.Key), Value := impt },
         { KeyId := r.KeyId, Keys := r.Keys.map (·.Key), Value := impt + 1 }]), w) }

/-- The read `requestsById[id]` of the request map, `nil` when `id` is not
a key. -/
def requestsOf (requestsById : List (Nat × List (GetReq Go))) (id : Nat) : List (GetReq Go) :=
  match requestsById with
  | [] => []
  | (k, reqs) :: rest => if k = id then reqs else requestsOf rest id

/-- The server of the examples after two successful `Configure` calls on a
fresh server: the counter is 2 and the instances 1 and 2 are registered,
holding the plugins numbered 0 and 1. -/
def demoServer : ImportGRPCServer Nat Nat :=
  (run demo (ImportGRPCServer.fresh demoF) 0
    [Call.Configure (some 1), Call.Configure (some 1)]).2.1

/-- A sequence of calls for the examples: a successful `Configure`, a rejected
one, a `Get`, a `Close` and another successful `Configure`. -/
def demoCalls : List (Call (Option Nat)) :=
  [Call.Configure (some 1), Call.Configure (some 0), Call.Get [demoReq 1 "a" []] 0,
   Call.Close 1, Call.Configure (some 2)]

/-- A server for the examples whose counter holds the largest `uint64`, as
after 2^64 - 1 successful `Configure` calls, and whose registry is empty. -/
def lastIdServer : ImportGRPCServer Nat Nat :=
  { F := demoF, instanceId := 2 ^ 64 - 1, instances := fun _ => none }

/-- A request for the examples, as `demoReq 1 "a" []` with the execution
deadline `d`. -/
def deadlineReq (d : Nat) : WireRequest (Option Nat) :=
  { demoReq 1 "a" [] with ExecDeadline := d }

/-- What the claims ask of the request handed to a plugin for a wire request:
the execution id and the key id of the wire request, its deadline as the
instant `time.Unix(int64(execDeadline), 0)`, and its keys in input order, each
with its name and with its arguments in input order, every argument being the
value the codec decodes the wire argument to. -/
def Handed (env : Collab Wire Go E I W) (wr : WireRequest Wire) (r : GetReq Go) : Prop :=
  r.ExecId = wr.ExecId ∧ r.KeyId = wr.KeyId ∧
    r.ExecDeadline = timeUnix (int64 wr.ExecDeadline) 0 ∧
    List.Forall₂
      (fun wk k => k.Key = wk.Key ∧
        List.Forall₂ (fun a g => env.ValueToGo a TypeHint.nil = .ok g) wk.Args k.Args)
      wr.Keys r.Keys

/-- The collaborator state after the plugin queries `queries` (identifier,
plugin, requests) have each been run once, one after the other, from the
collaborator state `w`. -/
def applyQueries (env : Collab Wire Go E I W) (queries : List (Nat × I × List (GetReq Go)))
    (w : W) : W :=
  queries.foldl (fun w q => (env.Get q.2.1 q.2.2 w).2) w

/-- Collaborators for the examples, as `demo` except that every plugin query
leaves its mark on the collaborator state: a query of the plugin numbered
`impt` with `n` requests adds `100 * (impt + 1) + n` to it. -/
def counting : Collab (Option Nat) Nat String Nat Nat :=
  { demo with
    Get := fun impt reqs w =>
      (.ok (reqs.map fun r => { KeyId := r.KeyId, Keys := r.Keys.map (·.Key), Value := impt }),
        w + (100 * (impt + 1) + reqs.length)) }

/-! ## Properties of the handlers -/

/-- The dispatch loop never writes the server. -/
theorem dispatch_m (env : Collab Wire Go E I W) (m : ImportGRPCServer I W)
    (groups : List (Nat × List (GetReq Go))) :
    ∀ (responses : List (GetResponse Wire)) (w : W) (calls : List (Event Go I)),
      (dispatch env m groups responses w calls).m = m := by
  induction groups with
  | nil => intro responses w calls; rfl
  | cons g rest ih =>
    intro responses w calls
    obtain ⟨id, reqs⟩ := g
    simp only [dispatch]
    cases h1 : m.instances id with
    | none => rfl
    | some impt =>
      simp only []
      rcases h2 : env.Get impt reqs w with ⟨r, w1⟩
      cases r with
      | error err => rfl
      | ok results =>
        simp only []
        cases h3 : appendResults env id results responses with
        | error e => rfl
        | ok responses1 => exact ih _ _ _

/-- The handler `Get` never writes the server. -/
theorem Get_m (env : Collab Wire Go E I W) (m : ImportGRPCServer I W)
    (requests : List (WireRequest Wire)) (seed : Nat) (w : W) :
    (ImportGRPCServer.Get env m requests seed w).m = m := by
  simp only [ImportGRPCServer.Get]
  cases h1 : buildRequestsById env requests [] with
  | error e => rfl
  | ok g => exact dispatch_m env m _ _ _ _

/-- After `Close` the identifier is not in the registry. -/
theorem Close_instances (env : Collab Wire Go E I W) (m : ImportGRPCServer I W) (id : Nat)
    (w : W) : (ImportGRPCServer.Close env m id w).m
      = { m with instances := Function.update m.instances id none } := by
  simp only [ImportGRPCServer.Close]
  cases h1 : m.instances id with
  | none => rfl
  | some impt => by_cases h : env.Closer impt <;> simp [h]

/-- A step either leaves the counter alone, is not a successful `Configure`
and adds no identifier to the registry, or is a successful `Configure` that
returns the incremented counter and stores an instance under it. -/
theorem step_registry (env : Collab Wire Go E I W) (m : ImportGRPCServer I W) (w : W)
    (c : Call Wire) :
    ((step env m w c).2.1.instanceId = m.instanceId ∧
        (∀ rs, configuredIds ((step env m w c).1 :: rs) = configuredIds rs) ∧
        ∀ k, (step env m w c).2.1.instances k = m.instances k ∨
          (step env m w c).2.1.instances k = none) ∨
      ((step env m w c).2.1.instanceId = addUint64 m.instanceId 1 ∧
        (∀ rs, configuredIds ((step env m w c).1 :: rs)
          = addUint64 m.instanceId 1 :: configuredIds rs) ∧
        ∃ impt, (step env m w c).2.1.instances
          = Function.update m.instances (addUint64 m.instanceId 1) (some impt)) := by
  cases c with
  | Configure config =>
    simp only [step, ImportGRPCServer.Configure]
    cases h1 : env.ValueToGo config TypeHint.stringMap with
    | error err => left; simp [configuredIds]
    | ok configRaw =>
      simp only []
      rcases h2 : env.Configure (m.F w).1 configRaw (m.F w).2 with ⟨r, w2⟩
      cases r with
      | some err => left; simp [configuredIds]
      | none => right; exact ⟨rfl, fun rs => by simp [configuredIds], (m.F w).1, rfl⟩
  | Get requests seed =>
    left
    simp only [step, Get_m]
    exact ⟨trivial, fun rs => by simp [configuredIds], fun k => Or.inl trivial⟩
  | Close id =>
    left
    simp only [step, Close_instances]
    refine ⟨trivial, fun rs => by simp [configuredIds], fun k => ?_⟩
    by_cases hk : k = id
    · right; subst hk; simp
    · left; simp [Function.update, hk]

/-- The identifiers handed out by a run are the successors of the counter at
the start, taken modulo `2 ^ 64`, one after the other. -/
theorem configuredIds_run (env : Collab Wire Go E I W) (calls : List (Call Wire)) :
    ∀ (m : ImportGRPCServer I W) (w : W),
      configuredIds (run env m w calls).1
        = (List.range (configuredIds (run env m w calls).1).length).map
            (fun j => (m.instanceId + j + 1) % 2 ^ 64) := by
  induction calls with
  | nil => intro m w; simp [run, configuredIds]
  | cons c cs ih =>
    intro m w
    simp only [run]
    rcases step_registry env m w c with ⟨hc, hr, -⟩ | ⟨hc, hr, -⟩
    · rw [hr, ← hc]; exact ih _ _
    · rw [hr, List.length_cons, List.range_succ_eq_map, List.map_cons, List.map_map]
      congr 1
      have := ih (step env m w c).2.1 (step env m w c).2.2
      rw [hc] at this
      conv_lhs => rw [this]
      apply List.map_congr_left
      intro j _
      simp only [addUint64, Function.comp]
      omega

/-- In the example collaborators the configuration `some 1` is accepted. -/
theorem demo_configure_ok (m : ImportGRPCServer Nat Nat) (w : Nat) :
    step demo m w (Call.Configure (some 1))
      = (Reply.Configure (.ok (addUint64 m.instanceId 1)),
          { m with instanceId := addUint64 m.instanceId 1,
                   instances := Function.update m.instances (addUint64 m.instanceId 1)
                      (some (m.F w).1) }, (m.F w).2) := by
  simp [step, ImportGRPCServer.Configure, demo]

/-- In the example collaborators a run of `n` calls `Configure (some 1)` hands
out `n` identifiers. -/
theorem demo_replicate_length (n : Nat) :
    ∀ (m : ImportGRPCServer Nat Nat) (w : Nat),
      (configuredIds (run demo m w (List.replicate n (Call.Configure (some 1)))).1).length = n := by
  induction n with
  | zero => intro m w; simp [run, configuredIds]
  | succ n ih =>
    intro m w
    simp only [List.replicate_succ, run, demo_configure_ok, configuredIds, List.length_cons]
    rw [ih]

/-- C1 (amended): on a fresh server, for every sequence of Configure, Get and
Close calls in which fewer than 2^64 Configure calls succeed, the identifiers
returned by the successful Configure calls are strictly increasing in call
order, and so pairwise distinct. -/
theorem C1_configure_ids_increasing (env : Collab Wire Go E I W) (F : W → I × W) (w : W)
    (calls : List (Call Wire))
    (h : (configuredIds (run env (ImportGRPCServer.fresh F) w calls).1).length < 2 ^ 64) :
    (configuredIds (run env (ImportGRPCServer.fresh F) w calls).1).Pairwise (· < ·) ∧
      (configuredIds (run env (ImportGRPCServer.fresh F) w calls).1).Nodup := by
  have key := configuredIds_run env calls (ImportGRPCServer.fresh F) w
  have hp : (configuredIds (run env (ImportGRPCServer.fresh F) w calls).1).Pairwise (· < ·) := by
    rw [key, List.pairwise_map]
    refine List.Pairwise.imp_of_mem ?_ (List.pairwise_lt_range _)
    intro a b ha hb hab
    rw [List.mem_range] at ha hb
    simp only [ImportGRPCServer.fresh]
    omega
  exact ⟨hp, hp.imp (fun h => Nat.ne_of_lt h)⟩


/-- C1, witness: the run `demoCalls` hands out the identifiers 1 and 2. -/
theorem C1_configure_ids_increasing_witness :
    (configuredIds (run demo (ImportGRPCServer.fresh demoF) 0 demoCalls).1).length < 2 ^ 64 ∧
      (configuredIds (run demo (ImportGRPCServer.fresh demoF) 0 demoCalls).1).Pairwise
        (· < ·) ∧
      (configuredIds (run demo (ImportGRPCServer.fresh demoF) 0 demoCalls).1).Nodup :=
  ⟨by decide, C1_configure_ids_increasing demo demoF 0 demoCalls (by decide)⟩

/-- C1 as stated fails: on a fresh server, 2^64 successful Configure calls in a
row return identifiers that are not strictly increasing (the last one wraps
to 0, after 2^64 - 1). -/
theorem C1_counterexample :
    ¬ (configuredIds (run demo (ImportGRPCServer.fresh demoF) 0
          (List.replicate (2 ^ 64) (Call.Configure (some 1)))).1).Pairwise (· < ·) := by
  intro h
  rw [configuredIds_run, demo_replicate_length, List.pairwise_map] at h
  have h2 : (2 : Nat) ^ 64 = (2 ^ 64 - 1) + 1 := by norm_num
  rw [h2, List.range_succ, List.pairwise_append] at h
  have := h.2.2 0 (List.mem_range.mpr (by norm_num)) (2 ^ 64 - 1) (List.mem_singleton.mpr rfl)
  simp [ImportGRPCServer.fresh] at this

/-- The visiting order is a permutation of the entries. -/
theorem visitOrder_perm {α : Type} (seed : Nat) (l : List α) : (visitOrder seed l).Perm l := by
  unfold visitOrder
  rw [List.getD_eq_getElem?_getD]
  cases h : (List.permutations' l)[seed]? with
  | none => simp
  | some p =>
    simp only [Option.getD_some]
    exact List.mem_permutations'.mp (List.getElem?_mem h)

/-- Every permutation of the entries is the visiting order of some seed. -/
theorem visitOrder_complete {α : Type} (l p : List α) (h : p.Perm l) :
    ∃ seed, visitOrder seed l = p := by
  have hm : p ∈ List.permutations' l := List.mem_permutations'.mpr h
  obtain ⟨n, hn⟩ := List.mem_iff_getElem?.mp hm
  refine ⟨n, ?_⟩
  unfold visitOrder
  rw [List.getD_eq_getElem?_getD, hn]
  rfl

/-- Keys of the request map after one `append`. -/
theorem appendReq_keys (g : List (Nat × List (GetReq Go))) (id : Nat) (r : GetReq Go) (k : Nat) :
    k ∈ (appendReq g id r).map Prod.fst ↔ k = id ∨ k ∈ g.map Prod.fst := by
  induction g with
  | nil => simp [appendReq]
  | cons e rest ih =>
    obtain ⟨k0, rs⟩ := e
    simp only [appendReq]
    by_cases h : k0 = id
    · subst h; simp
    · simp only [h, if_false, List.map_cons, List.mem_cons, ih]
      tauto

/-- When the first loop of `Get` completes, every addressed identifier is a key
of the request map. -/
theorem buildRequestsById_keys (env : Collab Wire Go E I W) (requests : List (WireRequest Wire)) :
    ∀ (acc g : List (Nat × List (GetReq Go))), buildRequestsById env requests acc = .ok g →
      ∀ k, k ∈ g.map Prod.fst ↔ (k ∈ acc.map Prod.fst ∨ ∃ r ∈ requests, r.InstanceId = k) := by
  induction requests with
  | nil =>
    intro acc g h k
    simp only [buildRequestsById, Except.ok.injEq] at h
    subst h; simp
  | cons req rest ih =>
    intro acc g h k
    simp only [buildRequestsById] at h
    cases hc : convertReq env req with
    | error e => rw [hc] at h; cases h
    | ok getReq =>
      rw [hc] at h
      rw [ih _ _ h k, appendReq_keys]
      simp only [List.mem_cons, exists_eq_or_imp]
      tauto

/-- The second loop of `Get` fails when one of the groups it is to visit
addresses an identifier that is not in the registry. -/
theorem dispatch_unknown (env : Collab Wire Go E I W) (m : ImportGRPCServer I W)
    (groups : List (Nat × List (GetReq Go))) (h : ∃ g ∈ groups, m.instances g.1 = none) :
    ∀ (responses : List (GetResponse Wire)) (w : W) (calls : List (Event Go I)),
      ∃ e, (dispatch env m groups responses w calls).ret = .error e := by
  induction groups with
  | nil => simp at h
  | cons g rest ih =>
    intro responses w calls
    obtain ⟨id, reqs⟩ := g
    simp only [dispatch]
    cases h1 : m.instances id with
    | none => exact ⟨_, rfl⟩
    | some impt =>
      simp only []
      rcases h2 : env.Get impt reqs w with ⟨r, w1⟩
      cases r with
      | error err => exact ⟨_, rfl⟩
      | ok results =>
        simp only []
        cases h3 : appendResults env id results responses with
        | error e => exact ⟨_, rfl⟩
        | ok responses1 =>
          apply ih
          obtain ⟨g, hg, hu⟩ := h
          rcases List.mem_cons.mp hg with rfl | hg
          · simp [h1] at hu
          · exact ⟨g, hg, hu⟩

/-- C2: for every server state, every Get batch in which at least one request
addresses an identifier that is not in the registry, and every visiting order
of the groups, Get returns an error (and with it no response list), whatever
the other addressed instances are and answer. -/
theorem C2_get_unknown_instance_fails (env : Collab Wire Go E I W) (m : ImportGRPCServer I W)
    (requests : List (WireRequest Wire)) (seed : Nat) (w : W)
    (h : ∃ r ∈ requests, m.instances r.InstanceId = none) :
    ∃ e, (ImportGRPCServer.Get env m requests seed w).ret = .error e := by
  simp only [ImportGRPCServer.Get]
  cases hb : buildRequestsById env requests [] with
  | error e => exact ⟨e, rfl⟩
  | ok g =>
    apply dispatch_unknown
    obtain ⟨r, hr, hu⟩ := h
    have hk : r.InstanceId ∈ g.map Prod.fst :=
      (buildRequestsById_keys env requests [] g hb _).mpr (Or.inr ⟨r, hr, rfl⟩)
    have hk2 : r.InstanceId ∈ (visitOrder seed g).map Prod.fst :=
      ((visitOrder_perm seed g).map Prod.fst).mem_iff.mpr hk
    obtain ⟨e, he, hfst⟩ := List.mem_map.mp hk2
    exact ⟨e, he, by rw [hfst]; exact hu⟩

/-- C2, witness: a batch addressing the registered instance 1 and the unknown
identifier 7 fails, here when the group of 1 is visited first. -/
theorem C2_get_unknown_instance_fails_witness :
    (∃ r ∈ [demoReq 1 "a" [], demoReq 7 "b" []], demoServer.instances r.InstanceId = none) ∧
      ∃ e, (ImportGRPCServer.Get demo demoServer [demoReq 1 "a" [], demoReq 7 "b" []] 0 2).ret
        = .error e :=
  ⟨⟨demoReq 7 "b" [], by simp, by decide⟩,
    C2_get_unknown_instance_fails demo demoServer [demoReq 1 "a" [], demoReq 7 "b" []] 0 2
      ⟨demoReq 7 "b" [], by simp, by decide⟩⟩

/-- The argument loop completes exactly when every argument decodes, and then
yields the decoded arguments in order. -/
theorem convertArgs_eq_ok (env : Collab Wire Go E I W) (i : Nat) (args : List Wire) :
    ∀ objs, convertArgs env i args = .ok objs ↔
      List.Forall₂ (fun a g => env.ValueToGo a TypeHint.nil = .ok g) args objs := by
  induction args with
  | nil =>
    intro objs
    simp only [convertArgs, Except.ok.injEq, List.forall₂_nil_left_iff]
    exact eq_comm
  | cons a rest ih =>
    intro objs
    simp only [convertArgs]
    cases h1 : env.ValueToGo a TypeHint.nil with
    | error err =>
      simp only [List.forall₂_cons_left_iff]
      constructor
      · intro h; cases h
      · rintro ⟨g, gs, hg, -, -⟩; rw [h1] at hg; cases hg
    | ok obj =>
      simp only []
      cases h2 : convertArgs env i rest with
      | error e =>
        simp only [List.forall₂_cons_left_iff]
        constructor
        · intro h; cases h
        · rintro ⟨g, gs, -, hgs, -⟩
          rw [← ih gs, h2] at hgs; cases hgs
      | ok objs1 =>
        simp only [Except.ok.injEq, List.forall₂_cons_left_iff]
        constructor
        · intro h; exact ⟨obj, objs1, h1, (ih objs1).mp h2, h.symm⟩
        · rintro ⟨g, gs, hg, hgs, rfl⟩
          rw [h1] at hg
          cases hg
          rw [← ih gs, h2] at hgs; cases hgs; rfl

/-- The argument loop completes when every argument decodes. -/
theorem convertArgs_ok (env : Collab Wire Go E I W) (i : Nat) (args : List Wire)
    (h : args.all (fun a => decodes env a) = true) : ∃ objs, convertArgs env i args = .ok objs := by
  induction args with
  | nil => exact ⟨[], rfl⟩
  | cons a rest ih =>
    simp only [List.all_cons, Bool.and_eq_true] at h
    obtain ⟨objs, ho⟩ := ih h.2
    simp only [convertArgs]
    have h1 := h.1
    unfold decodes at h1
    cases hv : env.ValueToGo a TypeHint.nil with
    | error err => rw [hv] at h1; cases h1
    | ok obj => exact ⟨obj :: objs, by simp [ho]⟩

/-- The key loop completes when every argument of every key decodes. -/
theorem convertKeys_ok (env : Collab Wire Go E I W) (keys : List (WireKey Wire))
    (h : keys.all (fun k => k.Args.all fun a => decodes env a) = true) :
    ∀ i, ∃ ks, convertKeys env i keys = .ok ks := by
  induction keys with
  | nil => intro i; exact ⟨[], rfl⟩
  | cons k rest ih =>
    intro i
    simp only [List.all_cons, Bool.and_eq_true] at h
    obtain ⟨ks, hk⟩ := ih h.2 (i + 1)
    obtain ⟨args, ha⟩ := convertArgs_ok env i k.Args h.1
    exact ⟨{ Key := k.Key, Args := args } :: ks, by simp [convertKeys, ha, hk]⟩

/-- The first loop of `Get` completes when every argument of the batch decodes. -/
theorem buildRequestsById_ok (env : Collab Wire Go E I W) (requests : List (WireRequest Wire))
    (h : argsDecode env requests = true) :
    ∀ acc : List (Nat × List (GetReq Go)), ∃ g, buildRequestsById env requests acc = .ok g := by
  induction requests with
  | nil => intro acc; exact ⟨acc, rfl⟩
  | cons r rest ih =>
    intro acc
    simp only [argsDecode, List.all_cons, Bool.and_eq_true] at h
    obtain ⟨ks, hk⟩ := convertKeys_ok env r.Keys h.1 0
    simp only [buildRequestsById, convertReq, hk]
    exact ih (by simpa [argsDecode] using h.2) _

/-- The second loop of `Get` stops at once, with the unknown-instance error and
without any collaborator call, when the first group it visits addresses an
identifier that is not in the registry. -/
theorem dispatch_head_unknown (env : Collab Wire Go E I W) (m : ImportGRPCServer I W)
    (id : Nat) (reqs : List (GetReq Go)) (rest : List (Nat × List (GetReq Go)))
    (responses : List (GetResponse Wire)) (w : W) (calls : List (Event Go I))
    (h : m.instances id = none) :
    dispatch env m ((id, reqs) :: rest) responses w calls
      = { ret := .error (GoError.errorf ("unknown instance ID given: " ++ toString id)),
          m := m, w := w, calls := calls } := by
  simp [dispatch, h]

/-- C3 (amended): for every server state and identifier id, after Close(id)
every non-empty Get batch whose requests all address id and whose arguments
all decode fails with the unknown-instance error naming id, whether id was
registered before the Close or never existed. -/
theorem C3_get_after_close_unknown (env : Collab Wire Go E I W) (m : ImportGRPCServer I W) (id : Nat)
    (w w1 : W) (requests : List (WireRequest Wire)) (seed : Nat)
    (hne : requests ≠ []) (hid : ∀ r ∈ requests, r.InstanceId = id)
    (hdec : argsDecode env requests = true) :
    (ImportGRPCServer.Get env (ImportGRPCServer.Close env m id w).m requests seed w1).ret
      = .error (GoError.errorf ("unknown instance ID given: " ++ toString id)) := by
  obtain ⟨g, hg⟩ := buildRequestsById_ok env requests hdec ([] : List (Nat × List (GetReq Go)))
  have hkeys := buildRequestsById_keys env requests [] g hg
  simp only [ImportGRPCServer.Get, hg]
  obtain ⟨r0, hr0⟩ := List.exists_mem_of_ne_nil requests hne
  have hidg : id ∈ g.map Prod.fst := (hkeys id).mpr (Or.inr ⟨r0, hr0, hid r0 hr0⟩)
  have hperm := visitOrder_perm seed g
  cases hv : visitOrder seed g with
  | nil =>
    rw [hv] at hperm
    have := hperm.symm.eq_nil
    subst this
    simp at hidg
  | cons e rest =>
    obtain ⟨k, reqs⟩ := e
    have hk : k ∈ g.map Prod.fst := by
      have : (k, reqs) ∈ visitOrder seed g := by rw [hv]; exact List.mem_cons_self _ _
      exact List.mem_map.mpr ⟨(k, reqs), hperm.mem_iff.mp this, rfl⟩
    have hkid : k = id := by
      rcases (hkeys k).mp hk with h | ⟨r, hr, hrk⟩
      · simp at h
      · rw [← hrk]; exact hid r hr
    subst hkid
    rw [dispatch_head_unknown]
    rw [Close_instances]
    simp

/-- C3, witness: after `Close(1)` on the example server a Get for instance 1
reports the unknown instance 1. -/
theorem C3_get_after_close_unknown_witness :
    [demoReq 1 "c" [some 4]] ≠ [] ∧
      (∀ r ∈ [demoReq 1 "c" [some 4]], r.InstanceId = 1) ∧
      argsDecode demo [demoReq 1 "c" [some 4]] = true ∧
      (ImportGRPCServer.Get demo (ImportGRPCServer.Close demo demoServer 1 2).m
          [demoReq 1 "c" [some 4]] 0 2).ret
        = .error (GoError.errorf ("unknown instance ID given: " ++ toString 1)) :=
  ⟨by simp, by simp [demoReq], by decide,
    C3_get_after_close_unknown demo demoServer 1 2 2 [demoReq 1 "c" [some 4]] 0
      (by simp) (by simp [demoReq]) (by decide)⟩

/-- C3 as stated fails: after `Close(1)` a non-empty batch addressing only
identifier 1, one of whose arguments does not decode, fails with the argument
conversion error and not with the unknown-instance error. -/
theorem C3_counterexample :
    [demoReq 1 "k" [none]] ≠ [] ∧
      (∀ r ∈ [demoReq 1 "k" [none]], r.InstanceId = 1) ∧
      (ImportGRPCServer.Get demo
          (ImportGRPCServer.Close demo (ImportGRPCServer.fresh demoF) 1 0).m
          [demoReq 1 "k" [none]] 0 0).ret
        = .error (GoError.errorf "error converting arg 0: undecodable") ∧
      (ImportGRPCServer.Get demo
          (ImportGRPCServer.Close demo (ImportGRPCServer.fresh demoF) 1 0).m
          [demoReq 1 "k" [none]] 0 0).ret
        ≠ .error (GoError.errorf ("unknown instance ID given: " ++ toString 1)) := by
  refine ⟨by simp, by simp [demoReq], ?_, ?_⟩ <;> decide

/-- An identifier that is at most the counter and absent from the registry is
neither returned nor registered by a run that does not wrap the counter. -/
theorem run_absent (env : Collab Wire Go E I W) (id : Nat) (calls : List (Call Wire)) :
    ∀ (m : ImportGRPCServer I W) (w : W),
      m.instances id = none → id ≤ m.instanceId →
      m.instanceId + (configuredIds (run env m w calls).1).length < 2 ^ 64 →
      id ∉ configuredIds (run env m w calls).1 ∧ (run env m w calls).2.1.instances id = none := by
  induction calls with
  | nil => intro m w h _ _; simp [run, configuredIds, h]
  | cons c cs ih =>
    intro m w habs hle hlen
    simp only [run] at hlen ⊢
    rcases step_registry env m w c with ⟨hc, hr, hi⟩ | ⟨hc, hr, impt, hi⟩
    · rw [hr] at hlen ⊢
      apply ih
      · rcases hi id with h | h
        · rw [h]; exact habs
        · exact h
      · rw [hc]; exact hle
      · rw [hc]; exact hlen
    · rw [hr] at hlen ⊢
      simp only [List.length_cons] at hlen
      have hadd : addUint64 m.instanceId 1 = m.instanceId + 1 := by
        unfold addUint64; omega
      have hne : id ≠ m.instanceId + 1 := by omega
      have := ih (step env m w c).2.1 (step env m w c).2.2
        (by rw [hi, hadd]; simp [Function.update, hne, habs])
        (by rw [hc, hadd]; omega) (by rw [hc, hadd]; omega)
      rw [hadd]
      exact ⟨by simp [hne, this.1], this.2⟩

/-- C4 (amended): for every server state with counter c, every identifier
id ≤ c (every identifier handed out so far is one), and every sequence of
Configure, Get and Close calls executed after Close(id) in which the number k
of successful Configure calls satisfies c + k < 2^64, no Configure of the
sequence returns id and id is not in the registry at the end of the sequence. -/
theorem C4_closed_id_not_reused (env : Collab Wire Go E I W) (m : ImportGRPCServer I W)
    (id : Nat) (w w1 : W) (calls : List (Call Wire))
    (hid : id ≤ m.instanceId)
    (hlen : m.instanceId
      + (configuredIds (run env (ImportGRPCServer.Close env m id w).m w1 calls).1).length
        < 2 ^ 64) :
    id ∉ configuredIds (run env (ImportGRPCServer.Close env m id w).m w1 calls).1 ∧
      (run env (ImportGRPCServer.Close env m id w).m w1 calls).2.1.instances id = none := by
  apply run_absent
  · simp [Close_instances]
  · simpa [Close_instances] using hid
  · simpa [Close_instances] using hlen

/-- C4, witness: after `Close(1)` on the example server the run `demoCalls`
neither returns 1 nor registers an instance under 1. -/
theorem C4_closed_id_not_reused_witness :
    1 ≤ demoServer.instanceId ∧
      demoServer.instanceId
        + (configuredIds (run demo (ImportGRPCServer.Close demo demoServer 1 2).m 2
            demoCalls).1).length < 2 ^ 64 ∧
      1 ∉ configuredIds (run demo (ImportGRPCServer.Close demo demoServer 1 2).m 2
            demoCalls).1 ∧
      (run demo (ImportGRPCServer.Close demo demoServer 1 2).m 2 demoCalls).2.1.instances 1
        = none :=
  ⟨by decide, by decide,
    C4_closed_id_not_reused demo demoServer 1 2 2 demoCalls (by decide) (by decide)⟩

/-- C4 as stated fails: on a fresh server, after `Close(1)` of the identifier 1
that was never handed out, the next Configure returns 1 and registers an
instance under it. -/
theorem C4_counterexample :
    (run demo (ImportGRPCServer.Close demo (ImportGRPCServer.fresh demoF) 1 0).m
          (ImportGRPCServer.Close demo (ImportGRPCServer.fresh demoF) 1 0).w
          [Call.Configure (some 1)]).2.1.instances 1 = some 0 ∧
      1 ∈ configuredIds (run demo (ImportGRPCServer.Close demo (ImportGRPCServer.fresh demoF) 1 0).m
          (ImportGRPCServer.Close demo (ImportGRPCServer.fresh demoF) 1 0).w
          [Call.Configure (some 1)]).1 := by
  decide

/-- C5: for every server state and every configuration value whose decoding to
a string-keyed mapping fails, Configure returns the conversion error, makes no
collaborator call (the factory is not invoked) and leaves the instance map and
the identifier counter as they were. -/
theorem C5_configure_decode_failure (env : Collab Wire Go E I W) (m : ImportGRPCServer I W)
    (config : Wire) (w : W) (err : E)
    (h : env.ValueToGo config TypeHint.stringMap = .error err) :
    (ImportGRPCServer.Configure env m config w).ret
        = .error (GoError.errorf ("error converting config: " ++ env.Error err)) ∧
      (ImportGRPCServer.Configure env m config w).calls = [] ∧
      (ImportGRPCServer.Configure env m config w).w = w ∧
      (ImportGRPCServer.Configure env m config w).m.instances = m.instances ∧
      (ImportGRPCServer.Configure env m config w).m.instanceId = m.instanceId := by
  simp [ImportGRPCServer.Configure, h]

/-- C5, witness: the wire value `none` does not decode. -/
theorem C5_configure_decode_failure_witness :
    demo.ValueToGo none TypeHint.stringMap = .error "undecodable" ∧
      (ImportGRPCServer.Configure demo demoServer none 2).ret
        = .error (GoError.errorf ("error converting config: " ++ demo.Error "undecodable")) ∧
      (ImportGRPCServer.Configure demo demoServer none 2).calls = [] ∧
      (ImportGRPCServer.Configure demo demoServer none 2).w = 2 ∧
      (ImportGRPCServer.Configure demo demoServer none 2).m.instances = demoServer.instances ∧
      (ImportGRPCServer.Configure demo demoServer none 2).m.instanceId
        = demoServer.instanceId :=
  ⟨rfl, C5_configure_decode_failure demo demoServer none 2 "undecodable" rfl⟩

/-- C6: for every server state and every decodable configuration for which
the configure operation of the freshly created plugin returns an error e,
Configure returns exactly e, and the instance map and the identifier counter
are as before, so the failed call consumes no identifier. -/
theorem C6_configure_plugin_failure (env : Collab Wire Go E I W) (m : ImportGRPCServer I W)
    (config : Wire) (w : W) (configRaw : Go) (e : E)
    (hdec : env.ValueToGo config TypeHint.stringMap = .ok configRaw)
    (hcfg : (env.Configure (m.F w).1 configRaw (m.F w).2).1 = some e) :
    (ImportGRPCServer.Configure env m config w).ret = .error (GoError.val e) ∧
      (ImportGRPCServer.Configure env m config w).m.instances = m.instances ∧
      (ImportGRPCServer.Configure env m config w).m.instanceId = m.instanceId := by
  simp only [ImportGRPCServer.Configure, hdec]
  rcases h2 : env.Configure (m.F w).1 configRaw (m.F w).2 with ⟨r, w2⟩
  rw [h2] at hcfg
  simp only at hcfg
  subst hcfg
  simp

/-- C6, witness: the example plugins reject the configuration `some 0`. -/
theorem C6_configure_plugin_failure_witness :
    demo.ValueToGo (some 0) TypeHint.stringMap = .ok 0 ∧
      (demo.Configure (demoServer.F 2).1 0 (demoServer.F 2).2).1 = some "rejected" ∧
      (ImportGRPCServer.Configure demo demoServer (some 0) 2).ret
        = .error (GoError.val "rejected") ∧
      (ImportGRPCServer.Configure demo demoServer (some 0) 2).m.instances
        = demoServer.instances ∧
      (ImportGRPCServer.Configure demo demoServer (some 0) 2).m.instanceId
        = demoServer.instanceId :=
  ⟨rfl, rfl, C6_configure_plugin_failure demo demoServer (some 0) 2 0 "rejected" rfl rfl⟩

/-- On an identifier that is not in the registry `Close` makes no collaborator
call and only runs the `delete`. -/
theorem Close_absent (env : Collab Wire Go E I W) (m : ImportGRPCServer I W) (id : Nat) (w : W)
    (h : m.instances id = none) :
    ImportGRPCServer.Close env m id w
      = { ret := .ok (), m := { m with instances := Function.update m.instances id none },
          w := w, calls := [] } := by
  simp [ImportGRPCServer.Close, h]

/-- C7: for every server state and identifier, Close returns success (the
empty response and no error), whatever the disposal operation of the instance
returns; and when the identifier is not in the registry, Close leaves the
instance map and the counter as they were and makes no collaborator call (no
disposal is invoked). -/
theorem C7_close_always_succeeds (env : Collab Wire Go E I W) (m : ImportGRPCServer I W)
    (id : Nat) (w : W) :
    (ImportGRPCServer.Close env m id w).ret = .ok () ∧
      (m.instances id = none →
        (ImportGRPCServer.Close env m id w).m.instances = m.instances ∧
        (ImportGRPCServer.Close env m id w).m.instanceId = m.instanceId ∧
        (ImportGRPCServer.Close env m id w).calls = [] ∧
        (ImportGRPCServer.Close env m id w).w = w) := by
  constructor
  · simp only [ImportGRPCServer.Close]
    cases h1 : m.instances id with
    | none => rfl
    | some impt => by_cases h : env.Closer impt <;> simp [h]
  · intro h
    simp only [ImportGRPCServer.Close, h]
    refine ⟨?_, trivial, trivial, trivial⟩
    funext k
    by_cases hk : k = id
    · subst hk; simp [h]
    · simp [Function.update, hk]

/-- C7, witness: closing the registered instance 1, whose disposal fails,
succeeds, and closing the unknown identifier 5 changes nothing. -/
theorem C7_close_always_succeeds_witness :
    (ImportGRPCServer.Close demo demoServer 1 2).ret = .ok () ∧
      demoServer.instances 5 = none ∧
      (ImportGRPCServer.Close demo demoServer 5 2).m.instances = demoServer.instances ∧
      (ImportGRPCServer.Close demo demoServer 5 2).m.instanceId = demoServer.instanceId ∧
      (ImportGRPCServer.Close demo demoServer 5 2).calls = [] ∧
      (ImportGRPCServer.Close demo demoServer 5 2).w = 2 :=
  ⟨(C7_close_always_succeeds demo demoServer 1 2).1, by decide,
    (C7_close_always_succeeds demo demoServer 5 2).2 (by decide)⟩

/-- C8: Close is idempotent. For every server state and identifier id, a
second Close(id) right after the first leaves the server (map and counter) as
the first left it and makes no collaborator call; and the first Close(id)
either makes no collaborator call, or id was registered with an instance that
is an `io.Closer` and the one call made is the disposal of that instance. So
disposal is invoked at most once in total, by the first call. -/
theorem C8_close_idempotent (env : Collab Wire Go E I W) (m : ImportGRPCServer I W)
    (id : Nat) (w : W) :
    (ImportGRPCServer.Close env (ImportGRPCServer.Close env m id w).m id
        (ImportGRPCServer.Close env m id w).w).m = (ImportGRPCServer.Close env m id w).m ∧
      (ImportGRPCServer.Close env (ImportGRPCServer.Close env m id w).m id
        (ImportGRPCServer.Close env m id w).w).calls = [] ∧
      (ImportGRPCServer.Close env (ImportGRPCServer.Close env m id w).m id
        (ImportGRPCServer.Close env m id w).w).w = (ImportGRPCServer.Close env m id w).w ∧
      ((ImportGRPCServer.Close env m id w).calls = [] ∨
        ∃ impt, m.instances id = some impt ∧ env.Closer impt = true ∧
          (ImportGRPCServer.Close env m id w).calls = [Event.Close id impt]) := by
  have h1 : (ImportGRPCServer.Close env m id w).m.instances id = none := by
    simp [Close_instances]
  have h2 := Close_absent env (ImportGRPCServer.Close env m id w).m id
    (ImportGRPCServer.Close env m id w).w h1
  refine ⟨?_, ?_, ?_, ?_⟩
  · rw [Close_instances env (ImportGRPCServer.Close env m id w).m, Close_instances]
    simp
  · rw [h2]
  · rw [h2]
  · simp only [ImportGRPCServer.Close]
    cases h2 : m.instances id with
    | none => left; rfl
    | some impt =>
      by_cases h : env.Closer impt
      · right; exact ⟨impt, rfl, h, by simp [h]⟩
      · left; simp [h]

/-- The responses appended for one group carry the identifier of the group and
the key ids of the results, in order. -/
theorem appendResults_pairs (env : Collab Wire Go E I W) (id : Nat)
    (results : List (GetResult Go)) :
    ∀ (responses out : List (GetResponse Wire)),
      appendResults env id results responses = .ok out →
      out.map (fun r => (r.InstanceId, r.KeyId))
        = responses.map (fun r => (r.InstanceId, r.KeyId))
          ++ results.map (fun r => (id, r.KeyId)) := by
  induction results with
  | nil =>
    intro responses out h
    simp only [appendResults, Except.ok.injEq] at h
    subst h; simp
  | cons r rest ih =>
    intro responses out h
    simp only [appendResults] at h
    cases hv : env.GoToValue r.Value with
    | error err => rw [hv] at h; cases h
    | ok v =>
      rw [hv] at h
      rw [ih _ _ h]
      simp

/-- The (identifier, key id) pairs of the responses of a completed dispatch,
when every registered plugin answers with the key ids it was asked for. -/
theorem dispatch_pairs (env : Collab Wire Go E I W) (m : ImportGRPCServer I W)
    (hecho : ∀ id impt, m.instances id = some impt → ∀ reqs w results,
      (env.Get impt reqs w).1 = .ok results →
        (results.map (·.KeyId)).Perm (reqs.map (·.KeyId)))
    (groups : List (Nat × List (GetReq Go))) :
    ∀ (responses : List (GetResponse Wire)) (w : W) (calls : List (Event Go I))
      (out : List (GetResponse Wire)),
      (dispatch env m groups responses w calls).ret = .ok out →
      (out.map (fun r => (r.InstanceId, r.KeyId))).Perm
        (responses.map (fun r => (r.InstanceId, r.KeyId))
          ++ groups.flatMap (fun g => g.2.map (fun r => (g.1, r.KeyId)))) := by
  induction groups with
  | nil =>
    intro responses w calls out h
    simp only [dispatch, Except.ok.injEq] at h
    subst h; simp
  | cons g rest ih =>
    intro responses w calls out h
    obtain ⟨id, reqs⟩ := g
    simp only [dispatch] at h
    cases h1 : m.instances id with
    | none => rw [h1] at h; cases h
    | some impt =>
      rw [h1] at h
      simp only [] at h
      rcases h2 : env.Get impt reqs w with ⟨r, w1⟩
      rw [h2] at h
      cases r with
      | error err => cases h
      | ok results =>
        simp only [] at h
        cases h3 : appendResults env id results responses with
        | error e => rw [h3] at h; cases h
        | ok responses1 =>
          rw [h3] at h
          simp only [] at h
          have hp := ih _ _ _ _ h
          rw [appendResults_pairs env id results _ _ h3] at hp
          have he : (results.map (fun r => (id, r.KeyId))).Perm
              (reqs.map (fun r => (id, r.KeyId))) := by
            have := (hecho id impt h1 reqs w results (by rw [h2])).map (fun k => (id, k))
            simpa [List.map_map, Function.comp] using this
          refine hp.trans ?_
          simp only [List.flatMap_cons, List.append_assoc]
          exact (List.Perm.append_left _ (List.Perm.append_right _ he))

/-- One `append` to the request map adds one (identifier, key id) pair. -/
theorem appendReq_pairs (g : List (Nat × List (GetReq Go))) (id : Nat) (r : GetReq Go) :
    ((appendReq g id r).flatMap (fun g => g.2.map (fun r => (g.1, r.KeyId)))).Perm
      (g.flatMap (fun g => g.2.map (fun r => (g.1, r.KeyId))) ++ [(id, r.KeyId)]) := by
  induction g with
  | nil => simp [appendReq]
  | cons e rest ih =>
    obtain ⟨k, rs⟩ := e
    simp only [appendReq]
    by_cases h : k = id
    · subst h
      simp only [if_true, List.flatMap_cons, List.map_append, List.map_cons, List.map_nil,
        List.append_assoc]
      exact List.Perm.append_left _ List.perm_append_comm
    · simp only [h, if_false, List.flatMap_cons, List.append_assoc]
      exact List.Perm.append_left _ ih

/-- The request built from a wire request carries its execution id, its key
id, and the deadline at the Unix second `int64(req.ExecDeadline)`. -/
theorem convertReq_fields (env : Collab Wire Go E I W) (req : WireRequest Wire) (r : GetReq Go)
    (h : convertReq env req = .ok r) :
    r.ExecId = req.ExecId ∧ r.KeyId = req.KeyId ∧
      r.ExecDeadline = timeUnix (int64 req.ExecDeadline) 0 := by
  simp only [convertReq] at h
  cases hk : convertKeys env 0 req.Keys with
  | error e => rw [hk] at h; cases h
  | ok keys =>
    rw [hk] at h
    simp only [Except.ok.injEq] at h
    subst h
    exact ⟨rfl, rfl, rfl⟩

/-- The (identifier, key id) pairs held by the request map after the first loop
of `Get` are those it held before together with those of the requests read. -/
theorem buildRequestsById_pairs (env : Collab Wire Go E I W)
    (requests : List (WireRequest Wire)) :
    ∀ (acc g : List (Nat × List (GetReq Go))), buildRequestsById env requests acc = .ok g →
      (g.flatMap (fun g => g.2.map (fun r => (g.1, r.KeyId)))).Perm
        (acc.flatMap (fun g => g.2.map (fun r => (g.1, r.KeyId)))
          ++ requests.map (fun r => (r.InstanceId, r.KeyId))) := by
  induction requests with
  | nil =>
    intro acc g h
    simp only [buildRequestsById, Except.ok.injEq] at h
    subst h; simp
  | cons req rest ih =>
    intro acc g h
    simp only [buildRequestsById] at h
    cases hc : convertReq env req with
    | error e => rw [hc] at h; cases h
    | ok getReq =>
      rw [hc] at h
      refine (ih _ _ h).trans ?_
      have hk := (convertReq_fields env req getReq hc).2.1
      have := appendReq_pairs acc req.InstanceId getReq
      rw [hk] at this
      simp only [List.map_cons]
      rw [← List.singleton_append (l := List.map _ rest), ← List.append_assoc]
      exact List.Perm.append_right _ this

/-- C9 (amended): for every server state and every Get batch, over any number
of registered instances, for which Get succeeds, provided that every
registered plugin answers a query with results whose key ids are, as a
multiset, the key ids of the requests it was given, the multiset of
(instanceId, keyId) pairs of the response entries equals the multiset of
(instanceId, keyId) pairs of the input requests. -/
theorem C9_get_pairs_multiset (env : Collab Wire Go E I W) (m : ImportGRPCServer I W)
    (requests : List (WireRequest Wire)) (seed : Nat) (w : W)
    (responses : List (GetResponse Wire))
    (hecho : ∀ id impt, m.instances id = some impt → ∀ reqs w results,
      (env.Get impt reqs w).1 = .ok results →
        (results.map (·.KeyId)).Perm (reqs.map (·.KeyId)))
    (hok : (ImportGRPCServer.Get env m requests seed w).ret = .ok responses) :
    (responses.map (fun r => (r.InstanceId, r.KeyId))).Perm
      (requests.map (fun r => (r.InstanceId, r.KeyId))) := by
  simp only [ImportGRPCServer.Get] at hok
  cases hb : buildRequestsById env requests [] with
  | error e => rw [hb] at hok; cases hok
  | ok g =>
    rw [hb] at hok
    simp only [] at hok
    have h1 := dispatch_pairs env m hecho _ _ _ _ _ hok
    have h2 := buildRequestsById_pairs env requests [] g hb
    have h3 := (visitOrder_perm seed g).flatMap_right
      (fun g : Nat × List (GetReq Go) => g.2.map (fun r => (g.1, r.KeyId)))
    simp only [List.map_nil, List.nil_append, List.flatMap_nil] at h1 h2
    exact h1.trans (h3.trans h2)

/-- C9, witness: the example plugins echo the key ids; a batch over the
registered instances 1 and 2 is answered with the same pairs. -/
theorem C9_get_pairs_multiset_witness :
    (∀ id impt, demoServer.instances id = some impt → ∀ reqs w results,
        (demo.Get impt reqs w).1 = .ok results →
          (results.map (·.KeyId)).Perm (reqs.map (·.KeyId))) ∧
      (ImportGRPCServer.Get demo demoServer
          [demoReq 1 "a" [], demoReq 2 "b" [], demoReq 1 "c" [some 4]] 1 2).ret
        = .ok [{ InstanceId := 2, KeyId := "b", Keys := ["x"], Value := some 1 },
               { InstanceId := 1, KeyId := "a", Keys := ["x"], Value := some 0 },
               { InstanceId := 1, KeyId := "c", Keys := ["x"], Value := some 0 }] ∧
      ([(2, "b"), (1, "a"), (1, "c")] : List (Nat × String)).Perm
        [(1, "a"), (2, "b"), (1, "c")] :=
  ⟨fun _ _ _ reqs _ results h => by
      simp only [demo, Except.ok.injEq] at h
      subst h
      rw [List.map_map]
      exact List.Perm.refl _,
    by decide,
    C9_get_pairs_multiset demo demoServer
      [demoReq 1 "a" [], demoReq 2 "b" [], demoReq 1 "c" [some 4]] 1 2
      [{ InstanceId := 2, KeyId := "b", Keys := ["x"], Value := some 1 },
       { InstanceId := 1, KeyId := "a", Keys := ["x"], Value := some 0 },
       { InstanceId := 1, KeyId := "c", Keys := ["x"], Value := some 0 }]
      (fun _ _ _ reqs _ results h => by
        simp only [demo, Except.ok.injEq] at h
        subst h
        rw [List.map_map]
        exact List.Perm.refl _)
      (by decide)⟩

/-- C9 as stated fails: with plugins that answer each request with two results
(the collaborators `expanding`), a Get over the two registered instances 1
and 2 succeeds with four response entries, whose (instanceId, keyId) pairs are
not a rearrangement of the two pairs of the input. -/
theorem C9_counterexample :
    demoServer.instances 1 = some 0 ∧ demoServer.instances 2 = some 1 ∧
      (ImportGRPCServer.Get expanding demoServer [demoReq 1 "a" [], demoReq 2 "b" []] 0 2).ret
        = .ok [{ InstanceId := 1, KeyId := "a", Keys := ["x"], Value := some 0 },
               { InstanceId := 1, KeyId := "a", Keys := ["x"], Value := some 1 },
               { InstanceId := 2, KeyId := "b", Keys := ["x"], Value := some 1 },
               { InstanceId := 2, KeyId := "b", Keys := ["x"], Value := some 2 }] ∧
      ¬ ([(1, "a"), (1, "a"), (2, "b"), (2, "b")] : List (Nat × String)).Perm
          ([demoReq 1 "a" [], demoReq 2 "b" []].map (fun r => (r.InstanceId, r.KeyId))) := by
  refine ⟨?_, ?_, ?_, ?_⟩ <;> decide

/-- Reading the request map after one `append`. -/
theorem requestsOf_appendReq (g : List (Nat × List (GetReq Go))) (id : Nat) (r : GetReq Go)
    (k : Nat) :
    requestsOf (appendReq g id r) k
      = if k = id then requestsOf g id ++ [r] else requestsOf g k := by
  induction g with
  | nil =>
    by_cases h : k = id
    · subst h; simp [appendReq, requestsOf]
    · have h2 : ¬ id = k := fun e => h e.symm
      simp [appendReq, requestsOf, h, h2]
  | cons e rest ih =>
    obtain ⟨k0, rs⟩ := e
    simp only [appendReq]
    by_cases h0 : k0 = id
    · subst h0
      by_cases h : k = k0
      · subst h; simp [requestsOf]
      · have h2 : ¬ k0 = k := fun e => h e.symm
        simp [requestsOf, h, h2]
    · by_cases h : k = id
      · subst h
        simp only [h0, if_false, requestsOf, if_true]
        rw [ih]; simp
      · simp only [h0, if_false, requestsOf, h]
        rw [ih]; simp [h]

/-- One `append` keeps the keys of the request map distinct. -/
theorem appendReq_nodup (g : List (Nat × List (GetReq Go))) (id : Nat) (r : GetReq Go)
    (h : (g.map Prod.fst).Nodup) : ((appendReq g id r).map Prod.fst).Nodup := by
  induction g with
  | nil => simp [appendReq]
  | cons e rest ih =>
    obtain ⟨k0, rs⟩ := e
    simp only [List.map_cons, List.nodup_cons] at h
    simp only [appendReq]
    by_cases h0 : k0 = id
    · simp only [h0, if_true, List.map_cons, List.nodup_cons]
      rw [← h0]; exact h
    · simp only [h0, if_false, List.map_cons, List.nodup_cons]
      refine ⟨?_, ih h.2⟩
      rw [appendReq_keys]
      rintro (h1 | h1)
      · exact h0 h1
      · exact h.1 h1

/-- The first loop of `Get` keeps the keys of the request map distinct. -/
theorem buildRequestsById_nodup (env : Collab Wire Go E I W)
    (requests : List (WireRequest Wire)) :
    ∀ (acc g : List (Nat × List (GetReq Go))), buildRequestsById env requests acc = .ok g →
      (acc.map Prod.fst).Nodup → (g.map Prod.fst).Nodup := by
  induction requests with
  | nil =>
    intro acc g h hn
    simp only [buildRequestsById, Except.ok.injEq] at h
    subst h; exact hn
  | cons req rest ih =>
    intro acc g h hn
    simp only [buildRequestsById] at h
    cases hc : convertReq env req with
    | error e => rw [hc] at h; cases h
    | ok getReq =>
      rw [hc] at h
      exact ih _ _ h (appendReq_nodup acc _ _ hn)

/-- After the first loop of `Get` the request map holds, under each identifier,
what it held before followed by the requests built from the wire requests
addressed to that identifier, in input order. -/
theorem buildRequestsById_requestsOf (env : Collab Wire Go E I W)
    (requests : List (WireRequest Wire)) :
    ∀ (acc g : List (Nat × List (GetReq Go))), buildRequestsById env requests acc = .ok g →
      ∀ k, ∃ tail, requestsOf g k = requestsOf acc k ++ tail ∧
        List.Forall₂ (fun wr r => convertReq env wr = .ok r)
          (requests.filter (fun r => r.InstanceId = k)) tail := by
  induction requests with
  | nil =>
    intro acc g h k
    simp only [buildRequestsById, Except.ok.injEq] at h
    subst h
    exact ⟨[], by simp, by simp⟩
  | cons req rest ih =>
    intro acc g h k
    simp only [buildRequestsById] at h
    cases hc : convertReq env req with
    | error e => rw [hc] at h; cases h
    | ok getReq =>
      rw [hc] at h
      obtain ⟨tail, ht, hf⟩ := ih _ _ h k
      rw [requestsOf_appendReq] at ht
      by_cases hk : k = req.InstanceId
      · subst hk
        refine ⟨getReq :: tail, by simpa using ht, ?_⟩
        simp only [List.filter_cons, decide_True, if_true]
        exact List.Forall₂.cons hc hf
      · have hk2 : ¬ req.InstanceId = k := fun e => hk e.symm
        refine ⟨tail, by simpa [hk] using ht, ?_⟩
        simpa [List.filter_cons, hk2] using hf

/-- In a map with distinct keys an entry is what a read of its key yields. -/
theorem requestsOf_of_mem (g : List (Nat × List (GetReq Go))) (h : (g.map Prod.fst).Nodup)
    (k : Nat) (rs : List (GetReq Go)) (hm : (k, rs) ∈ g) : requestsOf g k = rs := by
  induction g with
  | nil => simp at hm
  | cons e rest ih =>
    obtain ⟨k0, rs0⟩ := e
    simp only [List.map_cons, List.nodup_cons] at h
    rcases List.mem_cons.mp hm with heq | hm
    · cases heq; simp [requestsOf]
    · have : k0 ≠ k := by
        rintro rfl
        exact h.1 (List.mem_map.mpr ⟨(k0, rs), hm, rfl⟩)
      simp only [requestsOf, this, if_false]
      exact ih h.2 hm

/-- The key loop keeps the key names, in order. -/
theorem convertKeys_names (env : Collab Wire Go E I W) (keys : List (WireKey Wire)) :
    ∀ (i : Nat) (ks : List (GetKey Go)), convertKeys env i keys = .ok ks →
      ks.map (·.Key) = keys.map (·.Key) := by
  induction keys with
  | nil =>
    intro i ks h
    simp only [convertKeys, Except.ok.injEq] at h
    subst h; rfl
  | cons k rest ih =>
    intro i ks h
    simp only [convertKeys] at h
    cases ha : convertArgs env i k.Args with
    | error e => rw [ha] at h; cases h
    | ok args =>
      rw [ha] at h
      simp only [] at h
      cases hk : convertKeys env (i + 1) rest with
      | error e => rw [hk] at h; cases h
      | ok ks1 =>
        rw [hk] at h
        simp only [Except.ok.injEq] at h
        subst h
        simp [ih _ _ hk]

/-- The request built from a wire request has the key names of the wire
request, in order. -/
theorem convertReq_names (env : Collab Wire Go E I W) (req : WireRequest Wire) (r : GetReq Go)
    (h : convertReq env req = .ok r) : r.Keys.map (·.Key) = req.Keys.map (·.Key) := by
  simp only [convertReq] at h
  cases hk : convertKeys env 0 req.Keys with
  | error e => rw [hk] at h; cases h
  | ok keys =>
    rw [hk] at h
    simp only [Except.ok.injEq] at h
    subst h
    exact convertKeys_names env _ _ _ hk

/-- One turn of the second loop of `Get` whose plugin query fails. -/
theorem dispatch_get_error (env : Collab Wire Go E I W) (m : ImportGRPCServer I W)
    (id : Nat) (reqs : List (GetReq Go)) (rest : List (Nat × List (GetReq Go)))
    (responses : List (GetResponse Wire)) (w w1 : W) (calls : List (Event Go I))
    (impt : I) (err : E)
    (h1 : m.instances id = some impt) (h2 : env.Get impt reqs w = (.error err, w1)) :
    dispatch env m ((id, reqs) :: rest) responses w calls
      = { ret := .error (GoError.val err), m := m, w := w1,
          calls := calls ++ [Event.Get id impt reqs] } := by
  simp [dispatch, h1, h2]

/-- One turn of the second loop of `Get` in which a result value does not
encode. -/
theorem dispatch_encode_error (env : Collab Wire Go E I W) (m : ImportGRPCServer I W)
    (id : Nat) (reqs : List (GetReq Go)) (rest : List (Nat × List (GetReq Go)))
    (responses : List (GetResponse Wire)) (w w1 : W) (calls : List (Event Go I))
    (impt : I) (results : List (GetResult Go)) (e : GoError E)
    (h1 : m.instances id = some impt) (h2 : env.Get impt reqs w = (.ok results, w1))
    (h3 : appendResults env id results responses = .error e) :
    dispatch env m ((id, reqs) :: rest) responses w calls
      = { ret := .error e, m := m, w := w1, calls := calls ++ [Event.Get id impt reqs] } := by
  simp [dispatch, h1, h2, h3]

/-- One turn of the second loop of `Get` that completes: the loop goes on with
the remaining groups. -/
theorem dispatch_continue (env : Collab Wire Go E I W) (m : ImportGRPCServer I W)
    (id : Nat) (reqs : List (GetReq Go)) (rest : List (Nat × List (GetReq Go)))
    (responses responses1 : List (GetResponse Wire)) (w w1 : W) (calls : List (Event Go I))
    (impt : I) (results : List (GetResult Go))
    (h1 : m.instances id = some impt) (h2 : env.Get impt reqs w = (.ok results, w1))
    (h3 : appendResults env id results responses = .ok responses1) :
    dispatch env m ((id, reqs) :: rest) responses w calls
      = dispatch env m rest responses1 w1 (calls ++ [Event.Get id impt reqs]) := by
  simp [dispatch, h1, h2, h3]

/-- C11: for every server state, Get on an empty request sequence returns an
empty response list and no error, whatever the visiting order, makes no
collaborator call (no plugin is invoked) and leaves the collaborator state as
it was. -/
theorem C11_get_empty_batch (env : Collab Wire Go E I W) (m : ImportGRPCServer I W)
    (seed : Nat) (w : W) :
    (ImportGRPCServer.Get env m [] seed w).ret = .ok [] ∧
      (ImportGRPCServer.Get env m [] seed w).calls = [] ∧
      (ImportGRPCServer.Get env m [] seed w).w = w := by
  have h : visitOrder seed ([] : List (Nat × List (GetReq Go))) = [] :=
    (visitOrder_perm seed []).eq_nil
  simp [ImportGRPCServer.Get, buildRequestsById, h, dispatch]

/-- The argument loop fails at the first argument that does not decode, with
an error whose number is the index `i` of the key. -/
theorem convertArgs_error (env : Collab Wire Go E I W) (i : Nat) (as1 as2 : List Wire)
    (arg : Wire) (err : E) (h1 : as1.all (fun a => decodes env a) = true)
    (herr : env.ValueToGo arg TypeHint.nil = .error err) :
    convertArgs env i (as1 ++ arg :: as2)
      = .error (GoError.errorf ("error converting arg " ++ toString i ++ ": " ++ env.Error err)) := by
  induction as1 with
  | nil => simp [convertArgs, herr]
  | cons a rest ih =>
    simp only [List.all_cons, Bool.and_eq_true] at h1
    have ha := h1.1
    unfold decodes at ha
    cases hv : env.ValueToGo a TypeHint.nil with
    | error e => rw [hv] at ha; cases ha
    | ok obj => simp [convertArgs, hv, ih h1.2]

/-- The key loop fails at the first key with an argument that does not decode,
with an error whose number is the index of that key. -/
theorem convertKeys_error (env : Collab Wire Go E I W) (ks1 ks2 : List (WireKey Wire))
    (key : WireKey Wire) (as1 as2 : List Wire) (arg : Wire) (err : E)
    (hks1 : ks1.all (fun k => k.Args.all fun a => decodes env a) = true)
    (hargs : key.Args = as1 ++ arg :: as2)
    (has1 : as1.all (fun a => decodes env a) = true)
    (herr : env.ValueToGo arg TypeHint.nil = .error err) :
    ∀ i, convertKeys env i (ks1 ++ key :: ks2)
      = .error (GoError.errorf
          ("error converting arg " ++ toString (i + ks1.length) ++ ": " ++ env.Error err)) := by
  induction ks1 with
  | nil =>
    intro i
    simp [convertKeys, hargs, convertArgs_error env i as1 as2 arg err has1 herr]
  | cons k rest ih =>
    intro i
    simp only [List.all_cons, Bool.and_eq_true] at hks1
    obtain ⟨args, ha⟩ := convertArgs_ok env i k.Args hks1.1
    have := ih hks1.2 (i + 1)
    have hi : i + 1 + rest.length = i + (rest.length + 1) := by omega
    rw [hi] at this
    rw [List.cons_append, List.length_cons]
    generalize rest ++ key :: ks2 = l at this ⊢
    simp only [convertKeys, ha, this]

/-- The first loop of `Get` fails with the error of the first request that is
not built. -/
theorem buildRequestsById_error (env : Collab Wire Go E I W)
    (before after : List (WireRequest Wire)) (req : WireRequest Wire) (e : GoError E)
    (hb : argsDecode env before = true) (hreq : convertReq env req = .error e) :
    ∀ acc : List (Nat × List (GetReq Go)),
      buildRequestsById env (before ++ req :: after) acc = .error e := by
  induction before with
  | nil => intro acc; simp [buildRequestsById, hreq]
  | cons r rest ih =>
    intro acc
    simp only [argsDecode, List.all_cons, Bool.and_eq_true] at hb
    obtain ⟨ks, hk⟩ := convertKeys_ok env r.Keys hb.1 0
    simp only [List.cons_append, buildRequestsById, convertReq, hk]
    exact ih (by simpa [argsDecode] using hb.2) _

/-- C12 (what the code does): when the first argument of a Get batch that does
not decode is the argument at position `as1.length` of the key at index
`ks1.length` of a request, the conversion error returned by Get carries the
index `ks1.length` of the key, not the position of the argument. -/
theorem C12_conversion_error_carries_key_index (env : Collab Wire Go E I W)
    (m : ImportGRPCServer I W) (seed : Nat) (w : W)
    (before after : List (WireRequest Wire)) (req : WireRequest Wire)
    (ks1 ks2 : List (WireKey Wire)) (key : WireKey Wire) (as1 as2 : List Wire)
    (arg : Wire) (err : E)
    (hb : argsDecode env before = true)
    (hkeys : req.Keys = ks1 ++ key :: ks2)
    (hks1 : ks1.all (fun k => k.Args.all fun a => decodes env a) = true)
    (hargs : key.Args = as1 ++ arg :: as2)
    (has1 : as1.all (fun a => decodes env a) = true)
    (herr : env.ValueToGo arg TypeHint.nil = .error err) :
    (ImportGRPCServer.Get env m (before ++ req :: after) seed w).ret
      = .error (GoError.errorf
          ("error converting arg " ++ toString ks1.length ++ ": " ++ env.Error err)) := by
  have hk := convertKeys_error env ks1 ks2 key as1 as2 arg err hks1 hargs has1 herr 0
  rw [Nat.zero_add] at hk
  have hreq : convertReq env req = .error (GoError.errorf
      ("error converting arg " ++ toString ks1.length ++ ": " ++ env.Error err)) := by
    simp [convertReq, hkeys, hk]
  simp [ImportGRPCServer.Get, buildRequestsById_error env before after req _ hb hreq]

/-- C12, at a failing input: the batch has one request with one key (index 0)
whose argument at position 1 does not decode; the error returned by Get
carries 0, the index of the key, while the bad value is at position 1. -/
theorem C12_conversion_error_carries_key_index_witness :
    ([some 3] : List (Option Nat)).length = 1 ∧
      demo.ValueToGo none TypeHint.nil = .error "undecodable" ∧
      (ImportGRPCServer.Get demo demoServer [demoReq 1 "k" [some 3, none]] 0 2).ret
        = .error (GoError.errorf "error converting arg 0: undecodable") :=
  ⟨rfl, rfl,
    C12_conversion_error_carries_key_index demo demoServer 0 2 [] []
      (demoReq 1 "k" [some 3, none]) [] [] { Key := "x", Args := [some 3, none] } [some 3] []
      none "undecodable" rfl rfl rfl rfl (by decide) rfl⟩

/-- C13 (amended): identifiers are allocated only by successful configuration.
On a fresh server, for every sequence of calls and every n with n + 1 < 2^64,
the (n+1)-th successful Configure (if the sequence has that many) returns the
identifier n + 1, whatever failed Configure calls, Get calls and Close calls
are interleaved. -/
theorem C13_nth_configure_returns_n (env : Collab Wire Go E I W) (F : W → I × W) (w : W)
    (calls : List (Call Wire)) (n : Nat)
    (hn : n < (configuredIds (run env (ImportGRPCServer.fresh F) w calls).1).length)
    (hbound : n + 1 < 2 ^ 64) :
    (configuredIds (run env (ImportGRPCServer.fresh F) w calls).1)[n]? = some (n + 1) := by
  rw [configuredIds_run env calls (ImportGRPCServer.fresh F) w]
  rw [List.getElem?_map, List.getElem?_range hn]
  simp only [ImportGRPCServer.fresh, Option.map_some', Option.some.injEq]
  omega

/-- C13, witness: in the run `demoCalls` the second successful Configure, the
fifth call of the run, returns 2. -/
theorem C13_nth_configure_returns_n_witness :
    1 < (configuredIds (run demo (ImportGRPCServer.fresh demoF) 0 demoCalls).1).length ∧
      1 + 1 < 2 ^ 64 ∧
      (configuredIds (run demo (ImportGRPCServer.fresh demoF) 0 demoCalls).1)[1]?
        = some (1 + 1) :=
  ⟨by decide, by decide,
    C13_nth_configure_returns_n demo demoF 0 demoCalls 1 (by decide) (by decide)⟩

/-- C13 as stated fails: on a fresh server the 2^64-th successful Configure in
a row returns the identifier 0, not 2^64. -/
theorem C13_counterexample :
    (configuredIds (run demo (ImportGRPCServer.fresh demoF) 0
        (List.replicate (2 ^ 64) (Call.Configure (some 1)))).1)[2 ^ 64 - 1]? = some 0 := by
  rw [configuredIds_run, demo_replicate_length, List.getElem?_map,
    List.getElem?_range (by norm_num)]
  simp [ImportGRPCServer.fresh]

/-- C14 (amended): for every server state and every configuration that decodes
and that the new plugin accepts, Configure returns id = (previous counter + 1)
mod 2^64, which is previous counter + 1 whenever that is below 2^64; afterwards
the counter is id, the registry maps id to exactly the instance the factory
created for this call, and every other identifier maps to the same instance
(or absence) as before the call. -/
theorem C14_configure_registers (env : Collab Wire Go E I W) (m : ImportGRPCServer I W)
    (config : Wire) (w : W) (configRaw : Go)
    (hdec : env.ValueToGo config TypeHint.stringMap = .ok configRaw)
    (hcfg : (env.Configure (m.F w).1 configRaw (m.F w).2).1 = none) :
    (ImportGRPCServer.Configure env m config w).ret = .ok ((m.instanceId + 1) % 2 ^ 64) ∧
      (m.instanceId + 1 < 2 ^ 64 →
        (ImportGRPCServer.Configure env m config w).ret = .ok (m.instanceId + 1)) ∧
      (ImportGRPCServer.Configure env m config w).m.instanceId = (m.instanceId + 1) % 2 ^ 64 ∧
      (ImportGRPCServer.Configure env m config w).m.instances ((m.instanceId + 1) % 2 ^ 64)
        = some (m.F w).1 ∧
      ∀ k, k ≠ (m.instanceId + 1) % 2 ^ 64 →
        (ImportGRPCServer.Configure env m config w).m.instances k = m.instances k := by
  simp only [ImportGRPCServer.Configure, hdec]
  rcases h2 : env.Configure (m.F w).1 configRaw (m.F w).2 with ⟨r, w2⟩
  rw [h2] at hcfg
  simp only at hcfg
  subst hcfg
  simp only [addUint64]
  refine ⟨trivial, fun h => ?_, trivial, by simp, fun k hk => ?_⟩
  · rw [Nat.mod_eq_of_lt h]
  · exact Function.update_noteq hk _ _

/-- C14, witness: on the example server, whose counter is 2, an accepted
Configure returns 3 and registers the plugin numbered 2 under 3. -/
theorem C14_configure_registers_witness :
    demo.ValueToGo (some 1) TypeHint.stringMap = .ok 1 ∧
      (demo.Configure (demoServer.F 2).1 1 (demoServer.F 2).2).1 = none ∧
      (ImportGRPCServer.Configure demo demoServer (some 1) 2).ret = .ok 3 ∧
      (ImportGRPCServer.Configure demo demoServer (some 1) 2).m.instances 3 = some 2 ∧
      (ImportGRPCServer.Configure demo demoServer (some 1) 2).m.instances 1
        = demoServer.instances 1 :=
  ⟨rfl, rfl,
    (C14_configure_registers demo demoServer (some 1) 2 1 rfl rfl).2.1 (by decide),
    (C14_configure_registers demo demoServer (some 1) 2 1 rfl rfl).2.2.2.1,
    (C14_configure_registers demo demoServer (some 1) 2 1 rfl rfl).2.2.2.2 1 (by decide)⟩

/-- C14 as stated fails: on a server whose counter is 2^64 - 1 an accepted
Configure returns 0, which is not the previous counter plus 1. -/
theorem C14_counterexample :
    lastIdServer.instanceId = 2 ^ 64 - 1 ∧
      (ImportGRPCServer.Configure demo lastIdServer (some 1) 0).ret = .ok 0 ∧
      (0 : Nat) ≠ lastIdServer.instanceId + 1 := by
  refine ⟨?_, ?_, ?_⟩ <;> decide

/-- The responses appended for one group are, result by result and in order,
the results of the group tagged with the identifier of the group, with the
value encoded for the wire. -/
theorem appendResults_entries (env : Collab Wire Go E I W) (id : Nat)
    (results : List (GetResult Go)) :
    ∀ (responses out : List (GetResponse Wire)),
      appendResults env id results responses = .ok out →
      ∃ resps, out = responses ++ resps ∧
        List.Forall₂ (fun res resp => resp.InstanceId = id ∧ resp.KeyId = res.KeyId ∧
          resp.Keys = res.Keys ∧ env.GoToValue res.Value = .ok resp.Value) results resps := by
  induction results with
  | nil =>
    intro responses out h
    simp only [appendResults, Except.ok.injEq] at h
    subst h
    exact ⟨[], by simp, List.Forall₂.nil⟩
  | cons r rest ih =>
    intro responses out h
    simp only [appendResults] at h
    cases hv : env.GoToValue r.Value with
    | error err => rw [hv] at h; cases h
    | ok v =>
      rw [hv] at h
      obtain ⟨resps, ho, hf⟩ := ih _ _ h
      refine ⟨{ InstanceId := id, KeyId := r.KeyId, Keys := r.Keys, Value := v } :: resps, ?_, ?_⟩
      · rw [ho]; simp
      · exact List.Forall₂.cons ⟨rfl, rfl, rfl, hv⟩ hf

/-- The second loop of `Get` only adds to the collaborator calls made so far. -/
theorem dispatch_calls_mono (env : Collab Wire Go E I W) (m : ImportGRPCServer I W)
    (groups : List (Nat × List (GetReq Go))) :
    ∀ (responses : List (GetResponse Wire)) (w : W) (calls : List (Event Go I)),
      ∀ e ∈ calls, e ∈ (dispatch env m groups responses w calls).calls := by
  induction groups with
  | nil => intro responses w calls e he; exact he
  | cons g rest ih =>
    intro responses w calls e he
    obtain ⟨k, reqs⟩ := g
    cases h1 : m.instances k with
    | none => rw [dispatch_head_unknown env m k reqs rest responses w calls h1]; exact he
    | some impt =>
      rcases h2 : env.Get impt reqs w with ⟨r, w1⟩
      cases r with
      | error err =>
        rw [dispatch_get_error env m k reqs rest responses w w1 calls impt err h1 h2]
        exact List.mem_append_left _ he
      | ok results =>
        cases h3 : appendResults env k results responses with
        | error e0 =>
          rw [dispatch_encode_error env m k reqs rest responses w w1 calls impt results e0
            h1 h2 h3]
          exact List.mem_append_left _ he
        | ok responses1 =>
          rw [dispatch_continue env m k reqs rest responses responses1 w w1 calls impt results
            h1 h2 h3]
          exact ih _ _ _ e (List.mem_append_left _ he)

/-- A completed second loop of `Get` appends, group by group in visiting order,
the tagged results of the query made for the group. -/
theorem dispatch_parts (env : Collab Wire Go E I W) (m : ImportGRPCServer I W)
    (groups : List (Nat × List (GetReq Go))) :
    ∀ (responses : List (GetResponse Wire)) (w : W) (calls : List (Event Go I))
      (out : List (GetResponse Wire)),
      (dispatch env m groups responses w calls).ret = .ok out →
      ∃ parts : List (Nat × List (GetResult Go) × List (GetResponse Wire)),
        parts.map (·.1) = groups.map (·.1) ∧
        out = responses ++ parts.flatMap (·.2.2) ∧
        ∀ p ∈ parts, ∃ impt reqs w0, (p.1, reqs) ∈ groups ∧ m.instances p.1 = some impt ∧
          Event.Get p.1 impt reqs ∈ (dispatch env m groups responses w calls).calls ∧
          (env.Get impt reqs w0).1 = .ok p.2.1 ∧
          List.Forall₂ (fun res resp => resp.InstanceId = p.1 ∧ resp.KeyId = res.KeyId ∧
            resp.Keys = res.Keys ∧ env.GoToValue res.Value = .ok resp.Value) p.2.1 p.2.2 := by
  induction groups with
  | nil =>
    intro responses w calls out h
    simp only [dispatch, Except.ok.injEq] at h
    subst h
    exact ⟨[], rfl, by simp, by simp⟩
  | cons g rest ih =>
    intro responses w calls out h
    obtain ⟨k, reqs⟩ := g
    cases h1 : m.instances k with
    | none => rw [dispatch_head_unknown env m k reqs rest responses w calls h1] at h; cases h
    | some impt =>
      rcases h2 : env.Get impt reqs w with ⟨r, w1⟩
      cases r with
      | error err =>
        rw [dispatch_get_error env m k reqs rest responses w w1 calls impt err h1 h2] at h
        cases h
      | ok results =>
        cases h3 : appendResults env k results responses with
        | error e0 =>
          rw [dispatch_encode_error env m k reqs rest responses w w1 calls impt results e0
            h1 h2 h3] at h
          cases h
        | ok responses1 =>
          have hd := dispatch_continue env m k reqs rest responses responses1 w w1 calls impt
            results h1 h2 h3
          rw [hd] at h ⊢
          obtain ⟨parts, hkeys, hout, hparts⟩ := ih _ _ _ _ h
          obtain ⟨resps, hr, hf⟩ := appendResults_entries env k results _ _ h3
          refine ⟨(k, results, resps) :: parts, by simp [hkeys], ?_, ?_⟩
          · rw [hout, hr]; simp
          · intro p hp
            rcases List.mem_cons.mp hp with rfl | hp
            · refine ⟨impt, reqs, w, List.mem_cons_self _ _, h1, ?_, by rw [h2], hf⟩
              exact dispatch_calls_mono env m rest _ _ _ _ (by simp)
            · obtain ⟨impt1, reqs1, w0, hm, hi, he, hg, hf1⟩ := hparts p hp
              exact ⟨impt1, reqs1, w0, List.mem_cons_of_mem _ hm, hi, he, hg, hf1⟩

/-- C15: for every successful Get there are parts, one per distinct addressed
identifier, taken in some order, each made of the result list of the query
made for that identifier and of the response entries built from it, such that
the response list is the concatenation of the entries of the parts; the
entries of a part are, in the order the plugin returned the results, the
results tagged with the identifier, with the key id and the keys of the result
and its value encoded for the wire; so the response length is the total
number of results returned by the plugins. -/
theorem C15_get_responses_flatten (env : Collab Wire Go E I W) (m : ImportGRPCServer I W)
    (requests : List (WireRequest Wire)) (seed : Nat) (w : W)
    (responses : List (GetResponse Wire))
    (hok : (ImportGRPCServer.Get env m requests seed w).ret = .ok responses) :
    ∃ parts : List (Nat × List (GetResult Go) × List (GetResponse Wire)),
      (parts.map (·.1)).Nodup ∧
      (∀ id, id ∈ parts.map (·.1) ↔ ∃ r ∈ requests, r.InstanceId = id) ∧
      responses = parts.flatMap (·.2.2) ∧
      (∀ p ∈ parts, ∃ impt reqs w0, m.instances p.1 = some impt ∧
        Event.Get p.1 impt reqs ∈ (ImportGRPCServer.Get env m requests seed w).calls ∧
        (env.Get impt reqs w0).1 = .ok p.2.1 ∧
        List.Forall₂ (fun res resp => resp.InstanceId = p.1 ∧ resp.KeyId = res.KeyId ∧
          resp.Keys = res.Keys ∧ env.GoToValue res.Value = .ok resp.Value) p.2.1 p.2.2) ∧
      responses.length = (parts.map (·.2.1.length)).sum := by
  simp only [ImportGRPCServer.Get] at hok ⊢
  cases hb : buildRequestsById env requests [] with
  | error e => rw [hb] at hok; cases hok
  | ok g =>
    rw [hb] at hok
    simp only [] at hok ⊢
    obtain ⟨parts, hkeys, hout, hparts⟩ := dispatch_parts env m _ _ _ _ _ hok
    have hperm := (visitOrder_perm seed g).map Prod.fst
    have hnd : (g.map Prod.fst).Nodup := buildRequestsById_nodup env requests [] g hb (by simp)
    refine ⟨parts, ?_, ?_, by simpa using hout, ?_, ?_⟩
    · rw [hkeys]; exact hperm.nodup_iff.mpr hnd
    · intro id
      rw [hkeys, hperm.mem_iff, buildRequestsById_keys env requests [] g hb id]
      simp
    · intro p hp
      obtain ⟨impt, reqs, w0, -, hi, he, hg, hf⟩ := hparts p hp
      exact ⟨impt, reqs, w0, hi, he, hg, hf⟩
    · rw [hout, List.nil_append]
      have hlen : ∀ p ∈ parts, p.2.2.length = p.2.1.length := by
        intro p hp
        obtain ⟨_, _, _, -, -, -, -, hf⟩ := hparts p hp
        exact hf.length_eq.symm
      clear hout hparts hkeys
      induction parts with
      | nil => rfl
      | cons p rest ih =>
        simp only [List.flatMap_cons, List.length_append, List.map_cons, List.sum_cons]
        rw [hlen p (List.mem_cons_self _ _), ih (fun q hq => hlen q (List.mem_cons_of_mem _ hq))]

/-- C15, witness: a Get over the registered instances 1 and 2 that visits the
group of 2 first. -/
theorem C15_get_responses_flatten_witness :
    (ImportGRPCServer.Get demo demoServer
        [demoReq 1 "a" [], demoReq 2 "b" [], demoReq 1 "c" [some 4]] 1 2).ret
      = .ok [{ InstanceId := 2, KeyId := "b", Keys := ["x"], Value := some 1 },
             { InstanceId := 1, KeyId := "a", Keys := ["x"], Value := some 0 },
             { InstanceId := 1, KeyId := "c", Keys := ["x"], Value := some 0 }] ∧
    ∃ parts : List (Nat × List (GetResult Nat) × List (GetResponse (Option Nat))),
      (parts.map (·.1)).Nodup ∧
      (∀ id, id ∈ parts.map (·.1) ↔
        ∃ r ∈ [demoReq 1 "a" [], demoReq 2 "b" [], demoReq 1 "c" [some 4]], r.InstanceId = id) ∧
      [{ InstanceId := 2, KeyId := "b", Keys := ["x"], Value := some 1 },
       { InstanceId := 1, KeyId := "a", Keys := ["x"], Value := some 0 },
       { InstanceId := 1, KeyId := "c", Keys := ["x"], Value := some 0 }]
        = parts.flatMap (·.2.2) ∧
      (∀ p ∈ parts, ∃ impt reqs w0, demoServer.instances p.1 = some impt ∧
        Event.Get p.1 impt reqs ∈ (ImportGRPCServer.Get demo demoServer
          [demoReq 1 "a" [], demoReq 2 "b" [], demoReq 1 "c" [some 4]] 1 2).calls ∧
        (demo.Get impt reqs w0).1 = .ok p.2.1 ∧
        List.Forall₂ (fun res resp => resp.InstanceId = p.1 ∧ resp.KeyId = res.KeyId ∧
          resp.Keys = res.Keys ∧ demo.GoToValue res.Value = .ok resp.Value) p.2.1 p.2.2) ∧
      ([{ InstanceId := 2, KeyId := "b", Keys := ["x"], Value := some 1 },
        { InstanceId := 1, KeyId := "a", Keys := ["x"], Value := some 0 },
        { InstanceId := 1, KeyId := "c", Keys := ["x"], Value := some 0 }] :
          List (GetResponse (Option Nat))).length = (parts.map (·.2.1.length)).sum :=
  ⟨by decide,
    C15_get_responses_flatten demo demoServer
      [demoReq 1 "a" [], demoReq 2 "b" [], demoReq 1 "c" [some 4]] 1 2
      [{ InstanceId := 2, KeyId := "b", Keys := ["x"], Value := some 1 },
       { InstanceId := 1, KeyId := "a", Keys := ["x"], Value := some 0 },
       { InstanceId := 1, KeyId := "c", Keys := ["x"], Value := some 0 }]
      (by decide)⟩

/-- The argument loop completes only when every argument decodes. -/
theorem convertArgs_decodes (env : Collab Wire Go E I W) (i : Nat) (args : List Wire) :
    ∀ objs, convertArgs env i args = .ok objs → args.all (fun a => decodes env a) = true := by
  induction args with
  | nil => intro objs _; rfl
  | cons a rest ih =>
    intro objs h
    simp only [convertArgs] at h
    cases hv : env.ValueToGo a TypeHint.nil with
    | error err => rw [hv] at h; cases h
    | ok obj =>
      rw [hv] at h
      simp only [] at h
      cases hr : convertArgs env i rest with
      | error e => rw [hr] at h; cases h
      | ok objs1 =>
        simp only [List.all_cons, Bool.and_eq_true]
        exact ⟨by simp [decodes, hv], ih _ hr⟩

/-- The key loop completes only when every argument of every key decodes. -/
theorem convertKeys_decodes (env : Collab Wire Go E I W) (keys : List (WireKey Wire)) :
    ∀ i ks, convertKeys env i keys = .ok ks →
      keys.all (fun k => k.Args.all fun a => decodes env a) = true := by
  induction keys with
  | nil => intro i ks _; rfl
  | cons k rest ih =>
    intro i ks h
    simp only [convertKeys] at h
    cases ha : convertArgs env i k.Args with
    | error e => rw [ha] at h; cases h
    | ok args =>
      rw [ha] at h
      simp only [] at h
      cases hk : convertKeys env (i + 1) rest with
      | error e => rw [hk] at h; cases h
      | ok ks1 =>
        simp only [List.all_cons, Bool.and_eq_true]
        exact ⟨convertArgs_decodes env i _ _ ha, ih _ _ hk⟩

/-- The first loop of `Get` completes only when every argument of the batch
decodes. -/
theorem buildRequestsById_decodes (env : Collab Wire Go E I W)
    (requests : List (WireRequest Wire)) :
    ∀ (acc g : List (Nat × List (GetReq Go))), buildRequestsById env requests acc = .ok g →
      argsDecode env requests = true := by
  induction requests with
  | nil => intro acc g _; rfl
  | cons req rest ih =>
    intro acc g h
    simp only [buildRequestsById] at h
    cases hc : convertReq env req with
    | error e => rw [hc] at h; cases h
    | ok getReq =>
      rw [hc] at h
      have hrest := ih _ _ h
      simp only [convertReq] at hc
      cases hk : convertKeys env 0 req.Keys with
      | error e => rw [hk] at hc; cases hc
      | ok keys =>
        have := convertKeys_decodes env req.Keys 0 keys hk
        simp only [argsDecode, List.all_cons, Bool.and_eq_true] at hrest ⊢
        exact ⟨this, hrest⟩

/-- The result loop for one group completes exactly when every result value
encodes for the wire. -/
theorem appendResults_ok_iff (env : Collab Wire Go E I W) (id : Nat)
    (results : List (GetResult Go)) :
    ∀ responses : List (GetResponse Wire),
      (∃ out, appendResults env id results responses = .ok out) ↔
        ∀ res ∈ results, ∃ v, env.GoToValue res.Value = .ok v := by
  induction results with
  | nil => intro responses; simp [appendResults]
  | cons r rest ih =>
    intro responses
    simp only [appendResults, List.forall_mem_cons]
    cases hv : env.GoToValue r.Value with
    | error err => simp
    | ok v =>
      simp only [Except.ok.injEq, exists_eq', true_and]
      exact ih _

/-- With plugins whose query result does not depend on the collaborator
state, the second loop of `Get` completes exactly when every group it is given
addresses a registered instance whose query on the group succeeds with values
that all encode. -/
theorem dispatch_ok_iff (env : Collab Wire Go E I W) (m : ImportGRPCServer I W)
    (hpure : ∀ impt reqs w1 w2, (env.Get impt reqs w1).1 = (env.Get impt reqs w2).1)
    (w0 : W) (groups : List (Nat × List (GetReq Go))) :
    ∀ (responses : List (GetResponse Wire)) (w : W) (calls : List (Event Go I)),
      (∃ out, (dispatch env m groups responses w calls).ret = .ok out) ↔
        ∀ g ∈ groups, ∃ impt results, m.instances g.1 = some impt ∧
          (env.Get impt g.2 w0).1 = .ok results ∧
          ∀ res ∈ results, ∃ v, env.GoToValue res.Value = .ok v := by
  induction groups with
  | nil => intro responses w calls; simp [dispatch]
  | cons g rest ih =>
    intro responses w calls
    obtain ⟨k, reqs⟩ := g
    simp only [List.forall_mem_cons]
    cases h1 : m.instances k with
    | none =>
      rw [dispatch_head_unknown env m k reqs rest responses w calls h1]
      simp
    | some impt =>
      rcases h2 : env.Get impt reqs w with ⟨r, w1⟩
      have h2' : (env.Get impt reqs w0).1 = r := by rw [hpure impt reqs w0 w, h2]
      cases r with
      | error err =>
        rw [dispatch_get_error env m k reqs rest responses w w1 calls impt err h1 h2]
        simp [h2']
      | ok results =>
        cases h3 : appendResults env k results responses with
        | error e0 =>
          rw [dispatch_encode_error env m k reqs rest responses w w1 calls impt results e0
            h1 h2 h3]
          have hno : ¬ ∀ res ∈ results, ∃ v, env.GoToValue res.Value = .ok v := by
            rw [← appendResults_ok_iff env k results responses, h3]
            simp
          simp [h2', hno]
        | ok responses1 =>
          rw [dispatch_continue env m k reqs rest responses responses1 w w1 calls impt results
            h1 h2 h3, ih]
          have hyes : ∀ res ∈ results, ∃ v, env.GoToValue res.Value = .ok v :=
            (appendResults_ok_iff env k results responses).mp ⟨_, h3⟩
          constructor
          · intro h
            exact ⟨⟨impt, results, rfl, h2', hyes⟩, h⟩
          · intro h
            exact h.2

/-- Two lists related entry by entry to the same wire requests by `convertReq`
are equal. -/
theorem convertReq_forall₂_unique (env : Collab Wire Go E I W) (wrs : List (WireRequest Wire)) :
    ∀ (a b : List (GetReq Go)),
      List.Forall₂ (fun wr r => convertReq env wr = .ok r) wrs a →
      List.Forall₂ (fun wr r => convertReq env wr = .ok r) wrs b → a = b := by
  induction wrs with
  | nil =>
    intro a b ha hb
    rw [List.forall₂_nil_left_iff.mp ha, List.forall₂_nil_left_iff.mp hb]
  | cons wr rest ih =>
    intro a b ha hb
    obtain ⟨x, xs, hx, hxs, rfl⟩ := List.forall₂_cons_left_iff.mp ha
    obtain ⟨y, ys, hy, hys, rfl⟩ := List.forall₂_cons_left_iff.mp hb
    rw [hx] at hy
    cases hy
    rw [ih _ _ hxs hys]

/-- The entries of the request map built by the first loop of `Get` are the
addressed identifiers, each with the requests built from the wire requests
that address it, in input order. -/
theorem mem_buildRequestsById (env : Collab Wire Go E I W) (requests : List (WireRequest Wire))
    (g : List (Nat × List (GetReq Go))) (hb : buildRequestsById env requests [] = .ok g)
    (id : Nat) (reqs : List (GetReq Go)) :
    (id, reqs) ∈ g ↔ (∃ r ∈ requests, r.InstanceId = id) ∧
      List.Forall₂ (fun wr r => convertReq env wr = .ok r)
        (requests.filter (fun r => r.InstanceId = id)) reqs := by
  have hnd : (g.map Prod.fst).Nodup := buildRequestsById_nodup env requests [] g hb (by simp)
  have hkeys := buildRequestsById_keys env requests [] g hb id
  obtain ⟨tail, ht, hconv⟩ := buildRequestsById_requestsOf env requests [] g hb id
  simp only [requestsOf, List.nil_append] at ht
  constructor
  · intro hm
    have hk : id ∈ g.map Prod.fst := List.mem_map.mpr ⟨(id, reqs), hm, rfl⟩
    refine ⟨by simpa using hkeys.mp hk, ?_⟩
    rw [← requestsOf_of_mem g hnd id reqs hm, ht]
    exact hconv
  · rintro ⟨hin, hf⟩
    have hk : id ∈ g.map Prod.fst := hkeys.mpr (Or.inr hin)
    obtain ⟨e, he, hfst⟩ := List.mem_map.mp hk
    obtain ⟨k, rs⟩ := e
    simp only at hfst
    subst hfst
    have hrs : rs = tail := by rw [← requestsOf_of_mem g hnd k rs he, ht]
    have : reqs = rs := by
      rw [hrs]; exact convertReq_forall₂_unique env _ _ _ hf hconv
    rw [this]; exact he

/-- C17: for plugins whose query result depends only on its argument, Get
succeeds if and only if every argument of every key request decodes, every
identifier addressed by the batch is in the registry, and for every addressed
identifier the query of its plugin on its group (the requests built from the
wire requests addressing it, in input order) succeeds with values that all
convert to wire form; in every other case Get returns an error (and so no
responses); and whether Get succeeds does not depend on the visiting order. -/
theorem C17_get_succeeds_iff (env : Collab Wire Go E I W) (m : ImportGRPCServer I W)
    (requests : List (WireRequest Wire)) (w : W)
    (hpure : ∀ impt reqs w1 w2, (env.Get impt reqs w1).1 = (env.Get impt reqs w2).1) :
    (∀ seed, (∃ responses, (ImportGRPCServer.Get env m requests seed w).ret = .ok responses) ↔
      (argsDecode env requests = true ∧
        (∀ r ∈ requests, ∃ impt, m.instances r.InstanceId = some impt) ∧
        ∀ id impt reqs, (∃ r ∈ requests, r.InstanceId = id) → m.instances id = some impt →
          List.Forall₂ (fun wr r => convertReq env wr = .ok r)
            (requests.filter (fun r => r.InstanceId = id)) reqs →
          ∃ results, (env.Get impt reqs w).1 = .ok results ∧
            ∀ res ∈ results, ∃ v, env.GoToValue res.Value = .ok v)) ∧
      (∀ seed, (¬ ∃ responses, (ImportGRPCServer.Get env m requests seed w).ret = .ok responses) →
        ∃ e, (ImportGRPCServer.Get env m requests seed w).ret = .error e) ∧
      ∀ seed1 seed2,
        (∃ responses, (ImportGRPCServer.Get env m requests seed1 w).ret = .ok responses) ↔
          ∃ responses, (ImportGRPCServer.Get env m requests seed2 w).ret = .ok responses := by
  have main : ∀ seed,
      (∃ responses, (ImportGRPCServer.Get env m requests seed w).ret = .ok responses) ↔
      (argsDecode env requests = true ∧
        (∀ r ∈ requests, ∃ impt, m.instances r.InstanceId = some impt) ∧
        ∀ id impt reqs, (∃ r ∈ requests, r.InstanceId = id) → m.instances id = some impt →
          List.Forall₂ (fun wr r => convertReq env wr = .ok r)
            (requests.filter (fun r => r.InstanceId = id)) reqs →
          ∃ results, (env.Get impt reqs w).1 = .ok results ∧
            ∀ res ∈ results, ∃ v, env.GoToValue res.Value = .ok v) := by
    intro seed
    simp only [ImportGRPCServer.Get]
    cases hb : buildRequestsById env requests [] with
    | error e =>
      constructor
      · rintro ⟨_, h⟩; cases h
      · rintro ⟨hdec, -, -⟩
        obtain ⟨g, hg⟩ := buildRequestsById_ok env requests hdec
          ([] : List (Nat × List (GetReq Go)))
        rw [hb] at hg; cases hg
    | ok g =>
      simp only []
      rw [dispatch_ok_iff env m hpure w]
      have hperm := visitOrder_perm seed g
      constructor
      · intro h
        have hg : ∀ e ∈ g, ∃ impt results, m.instances e.1 = some impt ∧
            (env.Get impt e.2 w).1 = .ok results ∧
            ∀ res ∈ results, ∃ v, env.GoToValue res.Value = .ok v :=
          fun e he => h e (hperm.mem_iff.mpr he)
        refine ⟨buildRequestsById_decodes env requests [] g hb, ?_, ?_⟩
        · intro r hr
          have hk : r.InstanceId ∈ g.map Prod.fst :=
            (buildRequestsById_keys env requests [] g hb _).mpr (Or.inr ⟨r, hr, rfl⟩)
          obtain ⟨e, he, hfst⟩ := List.mem_map.mp hk
          obtain ⟨impt, _, hi, -, -⟩ := hg e he
          exact ⟨impt, by rw [← hfst]; exact hi⟩
        · intro id impt reqs hin hi hf
          have hm := (mem_buildRequestsById env requests g hb id reqs).mpr ⟨hin, hf⟩
          obtain ⟨impt1, results, hi1, hget, henc⟩ := hg (id, reqs) hm
          simp only at hi1 hget
          rw [hi] at hi1
          cases hi1
          exact ⟨results, hget, henc⟩
      · rintro ⟨-, hreg, hq⟩ e he
        obtain ⟨id, reqs⟩ := e
        have hm : (id, reqs) ∈ g := hperm.mem_iff.mp he
        obtain ⟨hin, hf⟩ := (mem_buildRequestsById env requests g hb id reqs).mp hm
        obtain ⟨r, hr, hrid⟩ := hin
        obtain ⟨impt, hi⟩ := hreg r hr
        rw [hrid] at hi
        obtain ⟨results, hget, henc⟩ := hq id impt reqs ⟨r, hr, hrid⟩ hi hf
        exact ⟨impt, results, hi, hget, henc⟩
  refine ⟨main, ?_, fun s1 s2 => (main s1).trans (main s2).symm⟩
  intro seed hno
  cases hr : (ImportGRPCServer.Get env m requests seed w).ret with
  | error e => exact ⟨e, rfl⟩
  | ok out => exact absurd ⟨out, hr⟩ hno

/-- C17, witness: the example plugins answer from their arguments alone, and
the Get over the registered instances 1 and 2 succeeds in both visiting
orders. -/
theorem C17_get_succeeds_iff_witness :
    (∀ impt reqs w1 w2, (demo.Get impt reqs w1).1 = (demo.Get impt reqs w2).1) ∧
      ((∃ responses, (ImportGRPCServer.Get demo demoServer
          [demoReq 1 "a" [], demoReq 2 "b" []] 0 2).ret = .ok responses) ↔
        ∃ responses, (ImportGRPCServer.Get demo demoServer
          [demoReq 1 "a" [], demoReq 2 "b" []] 1 2).ret = .ok responses) :=
  ⟨fun _ _ _ _ => rfl,
    (C17_get_succeeds_iff demo demoServer [demoReq 1 "a" [], demoReq 2 "b" []] 2
      (fun _ _ _ _ => rfl)).2.2 0 1⟩

/-- The counter after a run is the counter before plus the number of
identifiers handed out, modulo `2 ^ 64`. -/
theorem run_counter (env : Collab Wire Go E I W) (calls : List (Call Wire)) :
    ∀ (m : ImportGRPCServer I W) (w : W), m.instanceId < 2 ^ 64 →
      (run env m w calls).2.1.instanceId
        = (m.instanceId + (configuredIds (run env m w calls).1).length) % 2 ^ 64 := by
  induction calls with
  | nil =>
    intro m w h
    simp only [run, configuredIds, List.length_nil, Nat.add_zero]
    exact (Nat.mod_eq_of_lt h).symm
  | cons c cs ih =>
    intro m w h
    simp only [run]
    rcases step_registry env m w c with ⟨hc, hr, -⟩ | ⟨hc, hr, -⟩
    · rw [hr, ih _ _ (by rw [hc]; exact h), hc]
    · have hlt : (step env m w c).2.1.instanceId < 2 ^ 64 := by
        rw [hc]; unfold addUint64; exact Nat.mod_lt _ (by norm_num)
      rw [hr, ih _ _ hlt, hc, List.length_cons]
      unfold addUint64
      omega

/-- A key of the registry after a run was a key before the run or is one of
the identifiers handed out by the run. -/
theorem run_keys (env : Collab Wire Go E I W) (calls : List (Call Wire)) :
    ∀ (m : ImportGRPCServer I W) (w : W) (k : Nat) (impt : I),
      (run env m w calls).2.1.instances k = some impt →
        (∃ x, m.instances k = some x) ∨ k ∈ configuredIds (run env m w calls).1 := by
  induction calls with
  | nil => intro m w k impt h; exact Or.inl ⟨impt, h⟩
  | cons c cs ih =>
    intro m w k impt h
    simp only [run] at h ⊢
    rcases ih _ _ k impt h with ⟨x, hx⟩ | hmem
    · rcases step_registry env m w c with ⟨-, hr, hi⟩ | ⟨-, hr, y, hi⟩
      · rw [hr]
        rcases hi k with h1 | h1
        · left; exact ⟨x, by rw [← h1]; exact hx⟩
        · rw [h1] at hx; cases hx
      · rw [hr]
        by_cases hk : k = addUint64 m.instanceId 1
        · right; rw [hk]; exact List.mem_cons_self _ _
        · left
          rw [hi, Function.update_noteq hk] at hx
          exact ⟨x, hx⟩
    · right
      rcases step_registry env m w c with ⟨-, hr, -⟩ | ⟨-, hr, -⟩
      · rw [hr]; exact hmem
      · rw [hr]; exact List.mem_cons_of_mem _ hmem

/-- C18 (amended): in every state reached from a fresh server by Configure,
Get and Close calls, every key of the instance map is an identifier returned
by an earlier successful Configure call of the run; and as long as fewer than
2^64 Configure calls have succeeded, it lies between 1 and the current counter
value inclusive (so identifier 0 is not a key). -/
theorem C18_registry_keys_allocated (env : Collab Wire Go E I W) (F : W → I × W) (w : W)
    (calls : List (Call Wire)) (k : Nat) (impt : I)
    (hkey : (run env (ImportGRPCServer.fresh F) w calls).2.1.instances k = some impt) :
    k ∈ configuredIds (run env (ImportGRPCServer.fresh F) w calls).1 ∧
      ((configuredIds (run env (ImportGRPCServer.fresh F) w calls).1).length < 2 ^ 64 →
        1 ≤ k ∧ k ≤ (run env (ImportGRPCServer.fresh F) w calls).2.1.instanceId) := by
  have hmem : k ∈ configuredIds (run env (ImportGRPCServer.fresh F) w calls).1 := by
    rcases run_keys env calls _ w k impt hkey with ⟨x, hx⟩ | h
    · simp [ImportGRPCServer.fresh] at hx
    · exact h
  refine ⟨hmem, fun hlen => ?_⟩
  have hc := run_counter env calls (ImportGRPCServer.fresh F) w
    (by simp [ImportGRPCServer.fresh])
  rw [configuredIds_run env calls (ImportGRPCServer.fresh F) w] at hmem
  obtain ⟨j, hj, hjk⟩ := List.mem_map.mp hmem
  rw [List.mem_range] at hj
  have h0 : (ImportGRPCServer.fresh F).instanceId = 0 := rfl
  rw [h0] at hc hjk
  rw [hc]
  omega

/-- C18, witness: after the run `demoCalls` the instance registered under 2
is a key handed out by the run, between 1 and the counter. -/
theorem C18_registry_keys_allocated_witness :
    (run demo (ImportGRPCServer.fresh demoF) 0 demoCalls).2.1.instances 2 = some 2 ∧
      2 ∈ configuredIds (run demo (ImportGRPCServer.fresh demoF) 0 demoCalls).1 ∧
      ((configuredIds (run demo (ImportGRPCServer.fresh demoF) 0 demoCalls).1).length < 2 ^ 64 →
        1 ≤ 2 ∧ 2 ≤ (run demo (ImportGRPCServer.fresh demoF) 0 demoCalls).2.1.instanceId) :=
  ⟨by decide, C18_registry_keys_allocated demo demoF 0 demoCalls 2 2 (by decide)⟩

/-- Running two sequences of calls one after the other. -/
theorem run_append (env : Collab Wire Go E I W) (a b : List (Call Wire)) :
    ∀ (m : ImportGRPCServer I W) (w : W),
      run env m w (a ++ b)
        = ((run env m w a).1 ++ (run env (run env m w a).2.1 (run env m w a).2.2 b).1,
            (run env (run env m w a).2.1 (run env m w a).2.2 b).2.1,
            (run env (run env m w a).2.1 (run env m w a).2.2 b).2.2) := by
  induction a with
  | nil => intro m w; simp [run]
  | cons c cs ih => intro m w; simp [run, ih]

/-- In the example collaborators a run that ends with `Configure (some 1)`
leaves the counter incremented and an instance registered under it. -/
theorem demo_run_snoc (m : ImportGRPCServer Nat Nat) (w : Nat)
    (calls : List (Call (Option Nat))) :
    (run demo m w (calls ++ [Call.Configure (some 1)])).2.1.instanceId
        = addUint64 (run demo m w calls).2.1.instanceId 1 ∧
      (run demo m w (calls ++ [Call.Configure (some 1)])).2.1.instances
        (addUint64 (run demo m w calls).2.1.instanceId 1) ≠ none := by
  rw [run_append]
  simp only [run, demo_configure_ok]
  exact ⟨trivial, by simp⟩

/-- C18 as stated fails: after 2^64 successful Configure calls in a row on a
fresh server the counter is 0 and the identifier 0 is a key of the registry. -/
theorem C18_counterexample :
    (run demo (ImportGRPCServer.fresh demoF) 0
        (List.replicate (2 ^ 64) (Call.Configure (some 1)))).2.1.instanceId = 0 ∧
      (run demo (ImportGRPCServer.fresh demoF) 0
        (List.replicate (2 ^ 64) (Call.Configure (some 1)))).2.1.instances 0 ≠ none := by
  have h2 : (2 : Nat) ^ 64 = (2 ^ 64 - 1) + 1 := by norm_num
  have hrep : List.replicate (2 ^ 64) (Call.Configure (some 1) : Call (Option Nat))
      = List.replicate (2 ^ 64 - 1) (Call.Configure (some 1)) ++ [Call.Configure (some 1)] :=
    (congrArg (fun n => List.replicate n (Call.Configure (some 1) : Call (Option Nat))) h2).trans
      (List.replicate_succ' _ _)
  have hc := run_counter demo (List.replicate (2 ^ 64 - 1) (Call.Configure (some 1)))
    (ImportGRPCServer.fresh demoF) 0 (by decide)
  rw [demo_replicate_length] at hc
  have hsnoc := demo_run_snoc (ImportGRPCServer.fresh demoF) 0
    (List.replicate (2 ^ 64 - 1) (Call.Configure (some 1)))
  have hc2 : addUint64 (run demo (ImportGRPCServer.fresh demoF) 0
      (List.replicate (2 ^ 64 - 1) (Call.Configure (some 1)))).2.1.instanceId 1 = 0 := by
    rw [hc]
    decide
  rw [hc2, ← hrep] at hsnoc
  exact hsnoc

/-- C19: Get never changes the registry. For every server state, every batch
and every visiting order, whether Get succeeds or fails (argument conversion
error, unknown instance, plugin query error, value conversion error), the
instance map and the identifier counter after the call are those before it. -/
theorem C19_get_leaves_registry (env : Collab Wire Go E I W) (m : ImportGRPCServer I W)
    (requests : List (WireRequest Wire)) (seed : Nat) (w : W) :
    (ImportGRPCServer.Get env m requests seed w).m.instances = m.instances ∧
      (ImportGRPCServer.Get env m requests seed w).m.instanceId = m.instanceId := by
  rw [Get_m]
  exact ⟨rfl, rfl⟩

/-- A query logged by the second loop of `Get` was logged before the loop or is
made for one of the groups given to the loop, with the requests of the group. -/
theorem dispatch_event_group (env : Collab Wire Go E I W) (m : ImportGRPCServer I W)
    (id : Nat) (impt : I) (reqs : List (GetReq Go))
    (groups : List (Nat × List (GetReq Go))) :
    ∀ (responses : List (GetResponse Wire)) (w : W) (calls : List (Event Go I)),
      Event.Get id impt reqs ∈ (dispatch env m groups responses w calls).calls →
        Event.Get id impt reqs ∈ calls ∨ (id, reqs) ∈ groups := by
  induction groups with
  | nil => intro responses w calls h; exact Or.inl h
  | cons g rest ih =>
    intro responses w calls h
    obtain ⟨k, rs⟩ := g
    have one : ∀ impt0, Event.Get id impt reqs ∈ calls ++ [Event.Get k impt0 rs] →
        Event.Get id impt reqs ∈ calls ∨ (id, reqs) ∈ (k, rs) :: rest := by
      intro impt0 hm
      rcases List.mem_append.mp hm with hm | hm
      · exact Or.inl hm
      · right
        rw [List.mem_singleton] at hm
        cases hm
        exact List.mem_cons_self _ _
    cases h1 : m.instances k with
    | none =>
      rw [dispatch_head_unknown env m k rs rest responses w calls h1] at h
      exact Or.inl h
    | some impt0 =>
      rcases h2 : env.Get impt0 rs w with ⟨r, w1⟩
      cases r with
      | error err =>
        rw [dispatch_get_error env m k rs rest responses w w1 calls impt0 err h1 h2] at h
        exact one impt0 h
      | ok results =>
        cases h3 : appendResults env k results responses with
        | error e0 =>
          rw [dispatch_encode_error env m k rs rest responses w w1 calls impt0 results e0
            h1 h2 h3] at h
          exact one impt0 h
        | ok responses1 =>
          rw [dispatch_continue env m k rs rest responses responses1 w w1 calls impt0 results
            h1 h2 h3] at h
          rcases ih _ _ _ h with hm | hm
          · exact one impt0 hm
          · exact Or.inr (List.mem_cons_of_mem _ hm)

/-- Every element of the second of two lists related entry by entry is related
to an element of the first. -/
theorem forall₂_mem_right {α β : Type} (R : α → β → Prop) (l1 : List α) :
    ∀ (l2 : List β), List.Forall₂ R l1 l2 → ∀ b ∈ l2, ∃ a ∈ l1, R a b := by
  induction l1 with
  | nil =>
    intro l2 h b hb
    rw [List.forall₂_nil_left_iff.mp h] at hb
    cases hb
  | cons x xs ih =>
    intro l2 h b hb
    obtain ⟨y, ys, hxy, hrest, rfl⟩ := List.forall₂_cons_left_iff.mp h
    rcases List.mem_cons.mp hb with rfl | hb
    · exact ⟨x, List.mem_cons_self _ _, hxy⟩
    · obtain ⟨a, ha, hr⟩ := ih ys hrest b hb
      exact ⟨a, List.mem_cons_of_mem _ ha, hr⟩

/-- C20 (amended): every request handed to a plugin by Get is built from a wire
request of the batch that addresses the identifier of the query; it carries
the execution id, the key id and the key names of the wire request, and its
deadline is the instant `time.Unix(int64(execDeadline), 0)`, whose Unix
seconds are execDeadline when execDeadline is below 2^63, and
execDeadline - 2^64 for the other unsigned 64-bit values. -/
theorem C20_request_threads_fields (env : Collab Wire Go E I W) (m : ImportGRPCServer I W)
    (requests : List (WireRequest Wire)) (seed : Nat) (w : W)
    (id : Nat) (impt : I) (reqs : List (GetReq Go)) (r : GetReq Go)
    (hcall : Event.Get id impt reqs ∈ (ImportGRPCServer.Get env m requests seed w).calls)
    (hr : r ∈ reqs) :
    ∃ wr ∈ requests, wr.InstanceId = id ∧ r.ExecId = wr.ExecId ∧ r.KeyId = wr.KeyId ∧
      r.Keys.map (·.Key) = wr.Keys.map (·.Key) ∧
      r.ExecDeadline = timeUnix (int64 wr.ExecDeadline) 0 ∧
      (wr.ExecDeadline < 2 ^ 63 → r.ExecDeadline.sec = (wr.ExecDeadline : Int)) ∧
      (2 ^ 63 ≤ wr.ExecDeadline → wr.ExecDeadline < 2 ^ 64 →
        r.ExecDeadline.sec = (wr.ExecDeadline : Int) - 2 ^ 64) := by
  simp only [ImportGRPCServer.Get] at hcall
  cases hb : buildRequestsById env requests [] with
  | error e => rw [hb] at hcall; simp at hcall
  | ok g =>
    rw [hb] at hcall
    simp only [] at hcall
    rcases dispatch_event_group env m id impt reqs _ _ _ _ hcall with h | h
    · cases h
    · have hg : (id, reqs) ∈ g := (visitOrder_perm seed g).mem_iff.mp h
      obtain ⟨-, hf⟩ := (mem_buildRequestsById env requests g hb id reqs).mp hg
      obtain ⟨wr, hwr, hconv⟩ := forall₂_mem_right _ _ _ hf r hr
      rw [List.mem_filter] at hwr
      obtain ⟨h1, h2, h3⟩ := convertReq_fields env wr r hconv
      refine ⟨wr, hwr.1, by simpa using hwr.2, h1, h2, convertReq_names env wr r hconv, h3,
        ?_, ?_⟩
      · intro hlt
        rw [h3]
        have : wr.ExecDeadline % 2 ^ 64 = wr.ExecDeadline := Nat.mod_eq_of_lt (by omega)
        simp only [timeUnix, int64, this, hlt, if_true]
      · intro hge hlt
        rw [h3]
        have : wr.ExecDeadline % 2 ^ 64 = wr.ExecDeadline := Nat.mod_eq_of_lt hlt
        have hn : ¬ wr.ExecDeadline < 2 ^ 63 := by omega
        simp only [timeUnix, int64, this, hn, if_false]

/-- C20, witness: the request handed to the plugin of instance 1 for a wire
request with deadline 1700000000 has that deadline in Unix seconds. -/
theorem C20_request_threads_fields_witness :
    Event.Get 1 0 [{ ExecId := "e", ExecDeadline := timeUnix 1700000000 0,
                     Keys := [{ Key := "x", Args := [] }], KeyId := "a" }]
        ∈ (ImportGRPCServer.Get demo demoServer [deadlineReq 1700000000] 0 2).calls ∧
      ∃ wr ∈ [deadlineReq 1700000000], wr.InstanceId = 1 ∧ "e" = wr.ExecId ∧ "a" = wr.KeyId ∧
        ["x"] = wr.Keys.map (·.Key) ∧
        timeUnix 1700000000 0 = timeUnix (int64 wr.ExecDeadline) 0 ∧
        (wr.ExecDeadline < 2 ^ 63 → (1700000000 : Int) = (wr.ExecDeadline : Int)) ∧
        (2 ^ 63 ≤ wr.ExecDeadline → wr.ExecDeadline < 2 ^ 64 →
          (1700000000 : Int) = (wr.ExecDeadline : Int) - 2 ^ 64) :=
  ⟨by decide,
    C20_request_threads_fields demo demoServer [deadlineReq 1700000000] 0 2 1 0
      [{ ExecId := "e", ExecDeadline := timeUnix 1700000000 0,
         Keys := [{ Key := "x", Args := [] }], KeyId := "a" }]
      { ExecId := "e", ExecDeadline := timeUnix 1700000000 0,
        Keys := [{ Key := "x", Args := [] }], KeyId := "a" }
      (by decide) (by simp)⟩

/-- C20 as stated fails: for the wire deadline 2^63 the request handed to the
plugin carries the instant whose Unix seconds are -2^63, not 2^63. -/
theorem C20_counterexample :
    (ImportGRPCServer.Get demo demoServer [deadlineReq (2 ^ 63)] 0 2).calls
        = [Event.Get 1 0 [{ ExecId := "e", ExecDeadline := timeUnix (-(2 ^ 63)) 0,
                            Keys := [{ Key := "x", Args := [] }], KeyId := "a" }]] ∧
      (deadlineReq (2 ^ 63)).ExecDeadline < 2 ^ 64 ∧
      (timeUnix (-(2 ^ 63)) 0).sec ≠ ((deadlineReq (2 ^ 63)).ExecDeadline : Int) := by
  refine ⟨?_, ?_, ?_⟩ <;> decide

/-- The key loop, when it completes, yields the keys in input order, each with
its name and with the arguments the codec decodes its wire arguments to. -/
theorem convertKeys_handed (env : Collab Wire Go E I W) (keys : List (WireKey Wire)) :
    ∀ (i : Nat) (ks : List (GetKey Go)), convertKeys env i keys = .ok ks →
      List.Forall₂
        (fun wk k => k.Key = wk.Key ∧
          List.Forall₂ (fun a g => env.ValueToGo a TypeHint.nil = .ok g) wk.Args k.Args)
        keys ks := by
  induction keys with
  | nil =>
    intro i ks h
    simp only [convertKeys, Except.ok.injEq] at h
    subst h
    exact List.Forall₂.nil
  | cons k rest ih =>
    intro i ks h
    simp only [convertKeys] at h
    cases ha : convertArgs env i k.Args with
    | error e => rw [ha] at h; cases h
    | ok args =>
      rw [ha] at h
      simp only [] at h
      cases hk : convertKeys env (i + 1) rest with
      | error e => rw [hk] at h; cases h
      | ok ks1 =>
        rw [hk] at h
        simp only [Except.ok.injEq] at h
        subst h
        exact List.Forall₂.cons ⟨rfl, (convertArgs_eq_ok env i k.Args args).mp ha⟩ (ih _ _ hk)

/-- The request built from a wire request is the request the claims ask for. -/
theorem convertReq_handed (env : Collab Wire Go E I W) (wr : WireRequest Wire) (r : GetReq Go)
    (h : convertReq env wr = .ok r) : Handed env wr r := by
  obtain ⟨h1, h2, h3⟩ := convertReq_fields env wr r h
  refine ⟨h1, h2, h3, ?_⟩
  simp only [convertReq] at h
  cases hk : convertKeys env 0 wr.Keys with
  | error e => rw [hk] at h; cases h
  | ok keys =>
    rw [hk] at h
    simp only [Except.ok.injEq] at h
    subst h
    exact convertKeys_handed env _ _ _ hk

/-- Running one more query after a list of queries. -/
theorem applyQueries_cons (env : Collab Wire Go E I W) (q : Nat × I × List (GetReq Go))
    (qs : List (Nat × I × List (GetReq Go))) (w : W) :
    applyQueries env (q :: qs) w = applyQueries env qs (env.Get q.2.1 q.2.2 w).2 := rfl

/-- The second loop of `Get` visits a first part of the groups it is given, all
of them when it completes; for each visited group, in visiting order, it runs
the query of the plugin registered under the identifier of the group on the
requests of the group, once, and logs it; it makes no other collaborator
call. -/
theorem dispatch_applied (env : Collab Wire Go E I W) (m : ImportGRPCServer I W)
    (groups : List (Nat × List (GetReq Go))) :
    ∀ (responses : List (GetResponse Wire)) (w : W) (calls : List (Event Go I)),
      ∃ (queries : List (Nat × I × List (GetReq Go))) (rest : List (Nat × List (GetReq Go))),
        groups = queries.map (fun q => (q.1, q.2.2)) ++ rest ∧
        (∀ out, (dispatch env m groups responses w calls).ret = .ok out → rest = []) ∧
        (∀ q ∈ queries, m.instances q.1 = some q.2.1) ∧
        (dispatch env m groups responses w calls).calls
          = calls ++ queries.map (fun q => Event.Get q.1 q.2.1 q.2.2) ∧
        (dispatch env m groups responses w calls).w = applyQueries env queries w := by
  induction groups with
  | nil =>
    intro responses w calls
    exact ⟨[], [], rfl, fun _ _ => rfl, by simp, by simp [dispatch], rfl⟩
  | cons g rest ih =>
    intro responses w calls
    obtain ⟨k, reqs⟩ := g
    cases h1 : m.instances k with
    | none =>
      rw [dispatch_head_unknown env m k reqs rest responses w calls h1]
      exact ⟨[], (k, reqs) :: rest, rfl, fun _ h => (by cases h), by simp, by simp, rfl⟩
    | some impt =>
      rcases h2 : env.Get impt reqs w with ⟨r, w1⟩
      have hw : applyQueries env [(k, impt, reqs)] w = w1 := by
        simp [applyQueries, h2]
      cases r with
      | error err =>
        rw [dispatch_get_error env m k reqs rest responses w w1 calls impt err h1 h2]
        refine ⟨[(k, impt, reqs)], rest, rfl, fun _ h => (by cases h), ?_, rfl, hw.symm⟩
        intro q hq
        rw [List.mem_singleton.mp hq]
        exact h1
      | ok results =>
        cases h3 : appendResults env k results responses with
        | error e0 =>
          rw [dispatch_encode_error env m k reqs rest responses w w1 calls impt results e0
            h1 h2 h3]
          refine ⟨[(k, impt, reqs)], rest, rfl, fun _ h => (by cases h), ?_, rfl, hw.symm⟩
          intro q hq
          rw [List.mem_singleton.mp hq]
          exact h1
        | ok responses1 =>
          rw [dispatch_continue env m k reqs rest responses responses1 w w1 calls impt results
            h1 h2 h3]
          obtain ⟨qs, rest1, hsplit, hdone, hreg, hcalls, hstate⟩ :=
            ih responses1 w1 (calls ++ [Event.Get k impt reqs])
          refine ⟨(k, impt, reqs) :: qs, rest1, by rw [hsplit]; rfl, hdone, ?_, ?_, ?_⟩
          · intro q hq
            rcases List.mem_cons.mp hq with rfl | hq
            · exact h1
            · exact hreg q hq
          · rw [hcalls]; simp
          · rw [hstate, applyQueries_cons]
            simp only [h2]

/-- C10: in every Get there is a list of plugin queries (identifier, plugin,
requests), with pairwise distinct identifiers, such that the collaborator
calls Get makes are exactly these queries, in this order, and the collaborator
state after Get is the state reached by running each of them once, in this
order; every query goes to the plugin registered under its identifier, an
identifier that occurs in the batch, and its argument is the list of all the
requests of the batch addressing that identifier, in input order, each handed
over with its ids, its deadline and its keys in input order, the arguments of
each key decoded in input order; and when Get succeeds every identifier
occurring in the batch has its query in the list. So on a successful Get each
distinct identifier of the batch has its plugin queried exactly once, with
its full group, and on a failing Get no plugin is queried more than once. -/
theorem C10_get_queries_once (env : Collab Wire Go E I W) (m : ImportGRPCServer I W)
    (requests : List (WireRequest Wire)) (seed : Nat) (w : W) :
    ∃ queries : List (Nat × I × List (GetReq Go)),
      (ImportGRPCServer.Get env m requests seed w).calls
        = queries.map (fun q => Event.Get q.1 q.2.1 q.2.2) ∧
      (ImportGRPCServer.Get env m requests seed w).w = applyQueries env queries w ∧
      (queries.map (·.1)).Nodup ∧
      (∀ q ∈ queries, m.instances q.1 = some q.2.1 ∧
        (∃ r ∈ requests, r.InstanceId = q.1) ∧
        List.Forall₂ (Handed env) (requests.filter (fun r => r.InstanceId = q.1)) q.2.2) ∧
      (∀ responses, (ImportGRPCServer.Get env m requests seed w).ret = .ok responses →
        ∀ id, (∃ r ∈ requests, r.InstanceId = id) → id ∈ queries.map (·.1)) := by
  simp only [ImportGRPCServer.Get]
  cases hb : buildRequestsById env requests [] with
  | error e =>
    exact ⟨[], rfl, rfl, List.nodup_nil, by simp, fun _ h => (by cases h)⟩
  | ok g =>
    simp only []
    have hnd : (g.map Prod.fst).Nodup := buildRequestsById_nodup env requests [] g hb (by simp)
    have hperm := visitOrder_perm seed g
    have hndv : ((visitOrder seed g).map Prod.fst).Nodup :=
      ((hperm.map Prod.fst).nodup_iff).mpr hnd
    obtain ⟨queries, rest, hsplit, hdone, hreg, hcalls, hstate⟩ :=
      dispatch_applied env m (visitOrder seed g) ([] : List (GetResponse Wire)) w []
    have hfst : (queries.map (fun q => (q.1, q.2.2))).map Prod.fst = queries.map (·.1) := by
      rw [List.map_map]; rfl
    refine ⟨queries, by simpa using hcalls, hstate, ?_, ?_, ?_⟩
    · rw [hsplit, List.map_append, hfst] at hndv
      exact (List.nodup_append.mp hndv).1
    · intro q hq
      have hv : (q.1, q.2.2) ∈ visitOrder seed g := by
        rw [hsplit]
        exact List.mem_append_left _ (List.mem_map.mpr ⟨q, hq, rfl⟩)
      have hg : (q.1, q.2.2) ∈ g := hperm.mem_iff.mp hv
      obtain ⟨hin, hf⟩ := (mem_buildRequestsById env requests g hb q.1 q.2.2).mp hg
      exact ⟨hreg q hq, hin, hf.imp (fun wr r h => convertReq_handed env wr r h)⟩
    · intro responses hok id hid
      have hrest := hdone responses hok
      subst hrest
      rw [List.append_nil] at hsplit
      have hkey : id ∈ g.map Prod.fst :=
        (buildRequestsById_keys env requests [] g hb id).mpr (Or.inr hid)
      have hkv : id ∈ (visitOrder seed g).map Prod.fst := (hperm.map Prod.fst).mem_iff.mpr hkey
      rw [hsplit, hfst] at hkv
      exact hkv

/-- C10, witness: with the collaborators `counting`, a Get over the registered
instances 1 and 2 that visits the group of 2 first queries the plugin of 2
with its one request and then the plugin of 1 with its two requests, the
second with its decoded argument; the collaborator state, 2 before the call,
is 305 after it, the mark of exactly these two queries. -/
theorem C10_get_queries_once_witness :
    (ImportGRPCServer.Get counting demoServer
        [demoReq 1 "a" [], demoReq 2 "b" [], demoReq 1 "c" [some 4]] 1 2).calls
      = [Event.Get 2 1 [{ ExecId := "e", ExecDeadline := timeUnix 0 0,
                          Keys := [{ Key := "x", Args := [] }], KeyId := "b" }],
         Event.Get 1 0 [{ ExecId := "e", ExecDeadline := timeUnix 0 0,
                          Keys := [{ Key := "x", Args := [] }], KeyId := "a" },
                        { ExecId := "e", ExecDeadline := timeUnix 0 0,
                          Keys := [{ Key := "x", Args := [4] }], KeyId := "c" }]] ∧
    (ImportGRPCServer.Get counting demoServer
        [demoReq 1 "a" [], demoReq 2 "b" [], demoReq 1 "c" [some 4]] 1 2).w = 305 ∧
    ∃ queries : List (Nat × Nat × List (GetReq Nat)),
      (ImportGRPCServer.Get counting demoServer
          [demoReq 1 "a" [], demoReq 2 "b" [], demoReq 1 "c" [some 4]] 1 2).calls
        = queries.map (fun q => Event.Get q.1 q.2.1 q.2.2) ∧
      (ImportGRPCServer.Get counting demoServer
          [demoReq 1 "a" [], demoReq 2 "b" [], demoReq 1 "c" [some 4]] 1 2).w
        = applyQueries counting queries 2 ∧
      (queries.map (·.1)).Nodup ∧
      (∀ q ∈ queries, demoServer.instances q.1 = some q.2.1 ∧
        (∃ r ∈ [demoReq 1 "a" [], demoReq 2 "b" [], demoReq 1 "c" [some 4]],
          r.InstanceId = q.1) ∧
        List.Forall₂ (Handed counting)
          ([demoReq 1 "a" [], demoReq 2 "b" [], demoReq 1 "c" [some 4]].filter
            (fun r => r.InstanceId = q.1)) q.2.2) ∧
      (∀ responses, (ImportGRPCServer.Get counting demoServer
          [demoReq 1 "a" [], demoReq 2 "b" [], demoReq 1 "c" [some 4]] 1 2).ret = .ok responses →
        ∀ id, (∃ r ∈ [demoReq 1 "a" [], demoReq 2 "b" [], demoReq 1 "c" [some 4]],
          r.InstanceId = id) → id ∈ queries.map (·.1)) :=
  ⟨by decide, by decide,
    C10_get_queries_once counting demoServer
      [demoReq 1 "a" [], demoReq 2 "b" [], demoReq 1 "c" [some 4]] 1 2⟩

end Rpc
